import Mathlib

/-!
Verification development for the `toolz` traceroute-by-routing-tables tool
(files `traceroute_by_routing_tables.py` and its near-identical legacy copy
`traceRouteByShowIPRoute.py`).

The Python source is embedded shallowly:

* Python strings are Lean `String` / `List Char`; the `re` patterns used by
  the parser are transcribed into a small backtracking regex engine with
  capture groups (greedy, leftmost semantics, like CPython's `re`), driven
  by a fuel parameter so that everything is executable and kernel-reducible.
* The external `pytricia.PyTricia` longest-prefix-match trie is not part of
  the repository; it is modelled from the spec (section 4.1) as an
  association list of CIDR keys with most-specific-match lookup.
* Fallible Python operations (KeyError, ValueError, TypeError,
  AttributeError) are modelled with `Except PyErr`.
* The recursive `trace_route` is embedded with an explicit fuel argument;
  termination (claim C2) is proved as: beyond a bound given by the number of
  distinct routers, the result no longer depends on the fuel and the
  out-of-fuel marker cannot occur.
-/

set_option maxRecDepth 16000

/-- Python-level runtime errors that the embedded code can raise. -/
inductive PyErr where
  | valueError : PyErr
  | keyError : PyErr
  | typeError : PyErr
  | attributeError : PyErr
  | outOfFuel : PyErr
deriving DecidableEq, Repr

deriving instance DecidableEq for Except

/-- Python `\s` for the ASCII range: the whitespace characters of `str`. -/
def isPySpace (c : Char) : Bool :=
  c = ' ' || c = '\t' || c = '\n' || c = '\r' || c = '\x0b' || c = '\x0c'

/-- Python `str.split(sep)` for a single-character separator (keeps empty parts). -/
def splitCharAux (sep : Char) : List Char → List Char → List String
  | [], acc => [⟨acc.reverse⟩]
  | c :: rest, acc =>
      if c = sep then ⟨acc.reverse⟩ :: splitCharAux sep rest []
      else splitCharAux sep rest (c :: acc)

def pySplit (s : String) (sep : Char) : List String :=
  splitCharAux sep s.toList []

/-- Python `str.splitlines()` restricted to the line breaks occurring in the
inputs of this program (`\n`, `\r`, `\r\n`). -/
def pySplitlinesAux : List Char → List Char → List String
  | [], acc => if acc = [] then [] else [⟨acc.reverse⟩]
  | '\r' :: '\n' :: rest, acc => ⟨acc.reverse⟩ :: pySplitlinesAux rest []
  | '\r' :: rest, acc => ⟨acc.reverse⟩ :: pySplitlinesAux rest []
  | '\n' :: rest, acc => ⟨acc.reverse⟩ :: pySplitlinesAux rest []
  | c :: rest, acc => pySplitlinesAux rest (c :: acc)

def pySplitlines (s : String) : List String :=
  pySplitlinesAux s.toList []

/-- Python `int(s)` for a nonnegative decimal literal: surrounding whitespace
is stripped; a non-digit makes it raise (`none`). -/
def pyInt (s : String) : Option Nat :=
  let t := ((s.toList.dropWhile isPySpace).reverse.dropWhile isPySpace).reverse
  if t ≠ [] && t.all Char.isDigit then
    some (t.foldl (fun a c => a * 10 + (c.toNat - 48)) 0)
  else none

/-- `listStartsWith pat s` is Python `s.startswith(pat)` on exploded strings. -/
def listStartsWith : List Char → List Char → Bool
  | [], _ => true
  | _ :: _, [] => false
  | a :: as, b :: bs => a = b && listStartsWith as bs

/-- Python `s.startswith(t)`. -/
def pyStartswith (s t : String) : Bool :=
  listStartsWith t.toList s.toList

/-- Python `s.endswith(t)`. -/
def pyEndswith (s t : String) : Bool :=
  listStartsWith t.toList.reverse s.toList.reverse

/-- Python `s.replace(old, new)` with `new = ""` (all occurrences removed),
as used for `FILENAME.replace('.txt', '')`. -/
def pyReplaceDropAux (old : List Char) : Nat → List Char → List Char
  | 0, s => s
  | _ + 1, [] => []
  | fuel + 1, c :: rest =>
      if listStartsWith old (c :: rest) then
        pyReplaceDropAux old fuel ((c :: rest).drop old.length)
      else c :: pyReplaceDropAux old fuel rest

def pyReplaceDrop (s old : String) : String :=
  if old.toList = [] then s
  else ⟨pyReplaceDropAux old.toList (s.toList.length + 1) s.toList⟩

/-- Number of non-overlapping occurrences of `pat` in `s`: Python `s.count(pat)`
for a nonempty pattern. -/
def pyCountAux (pat : List Char) : Nat → List Char → Nat
  | 0, _ => 0
  | _ + 1, [] => 0
  | fuel + 1, c :: rest =>
      if listStartsWith pat (c :: rest) then
        1 + pyCountAux pat fuel ((c :: rest).drop pat.length)
      else pyCountAux pat fuel rest

def pyCount (s pat : String) : Nat :=
  pyCountAux pat.toList (s.toList.length + 1) s.toList

/-- `bin(n).count("1")`: the number of 1 digits in the binary expansion,
computed with structural fuel so that it evaluates in the kernel. -/
def countOnesAux : Nat → Nat → Nat
  | 0, _ => 0
  | fuel + 1, n => if n = 0 then 0 else n % 2 + countOnesAux fuel (n / 2)

def countOnes (n : Nat) : Nat := countOnesAux (n + 1) n

/-! ## A small backtracking regex engine

Transcription target for the `re` patterns of the source.  Greedy,
left-biased alternation, capture groups recorded with start/end positions,
exactly like CPython's backtracking engine on these patterns.  A fuel
argument makes every function structurally recursive and kernel-reducible.
-/

/-- Character classes occurring in the source's patterns. -/
inductive CC where
  | lit : Char → CC
  | digit : CC
  | space : CC
  | nonspace : CC
  | anyc : CC
  | oneOf : List Char → CC
deriving DecidableEq, Repr

def CC.test : CC → Char → Bool
  | .lit a, c => c = a
  | .digit, c => c.isDigit
  | .space, c => isPySpace c
  | .nonspace, c => !(isPySpace c)
  | .anyc, c => c ≠ '\n'
  | .oneOf l, c => l.contains c

/-- Regex abstract syntax: ε, a character class, sequencing, (left-biased)
alternation, greedy star, a numbered capture group, and the `$` anchor
(end of input or just before a final newline, CPython semantics). -/
inductive RE where
  | eps : RE
  | cc : CC → RE
  | seq : RE → RE → RE
  | alt : RE → RE → RE
  | star : RE → RE
  | grp : Nat → RE → RE
  | dollar : RE
deriving Repr

/-- Greedy `?`. -/
def RE.opt (r : RE) : RE := .alt r .eps

/-- Greedy `+`. -/
def RE.plus (r : RE) : RE := .seq r (.star r)

def rcat (l : List RE) : RE := l.foldr RE.seq .eps

def rstr (s : String) : RE := rcat (s.toList.map (fun c => RE.cc (.lit c)))

/-- Capture registers: `(group, start, end)`; the most recent capture of a
group shadows earlier ones (like CPython, which keeps the last repetition). -/
abbrev Caps := List (Nat × Nat × Nat)

def capSet (g : Caps) (n s e : Nat) : Caps := (n, s, e) :: g

def capGet (g : Caps) (n : Nat) : Option (Nat × Nat) :=
  match g.find? (fun x => x.1 = n) with
  | some (_, s, e) => some (s, e)
  | none => none

/-- Backtracking matcher in continuation-passing style.  `reMat fuel r s p g k`
tries to match `r` against the front of `s` (absolute position `p`), calling
the continuation `k` on every candidate suffix in greedy order.  Fuel bounds
the total number of engine steps; all concrete evaluations in this file use a
fuel far above what the inputs can consume. -/
def reMat : Nat → RE → List Char → Nat → Caps →
    (List Char → Nat → Caps → Option (Nat × Caps)) → Option (Nat × Caps)
  | 0, _, _, _, _, _ => none
  | _ + 1, .eps, s, p, g, k => k s p g
  | _ + 1, .cc c, s, p, g, k =>
      match s with
      | [] => none
      | x :: rest => if c.test x then k rest (p + 1) g else none
  | fuel + 1, .seq a b, s, p, g, k =>
      reMat fuel a s p g (fun s' p' g' => reMat fuel b s' p' g' k)
  | fuel + 1, .alt a b, s, p, g, k =>
      match reMat fuel a s p g k with
      | some r => some r
      | none => reMat fuel b s p g k
  | fuel + 1, .star r, s, p, g, k =>
      match reMat fuel r s p g
          (fun s' p' g' => if p' = p then none else reMat fuel (.star r) s' p' g' k) with
      | some res => some res
      | none => k s p g
  | fuel + 1, .grp n r, s, p, g, k =>
      reMat fuel r s p g (fun s' p' g' => k s' p' (capSet g' n p p'))
  | _ + 1, .dollar, s, p, g, k =>
      if s = [] || s = ['\n'] then k s p g else none

/-- A match: start, end, capture registers. -/
structure RMatch where
  ms : Nat
  me : Nat
  caps : Caps
deriving DecidableEq, Repr

/-- Fuel used for one match attempt over `text`.  Generous: the source's
patterns backtrack only locally on the short line-oriented inputs. -/
def reFuel (text : List Char) : Nat := 2000 * (text.length + 10)

/-- `re.match(pattern, s)`: anchored at position 0, free at the end. -/
def pyMatch (r : RE) (text : List Char) : Option RMatch :=
  match reMat (reFuel text) r text 0 [] (fun _ p g => some (p, g)) with
  | some (e, g) => some { ms := 0, me := e, caps := g }
  | none => none

/-- One step of `re.finditer` for a pattern beginning with a MULTILINE `^`:
attempt only at line starts, emit non-overlapping matches left to right,
advance past each match (by one character for an empty match). -/
def finditerGo (r : RE) (mfuel : Nat) : Nat → List Char → Nat → Bool → List RMatch
  | 0, _, _, _ => []
  | ofuel + 1, s, pos, lineStart =>
      match (if lineStart then reMat mfuel r s pos [] (fun _ p g => some (p, g)) else none) with
      | some (e, g) =>
          { ms := pos, me := e, caps := g } ::
            (if e > pos then
              finditerGo r mfuel ofuel (s.drop (e - pos)) e
                (match s.get? (e - pos - 1) with
                 | some c => c = '\n'
                 | none => false)
            else
              match s with
              | [] => []
              | c :: rest => finditerGo r mfuel ofuel rest (pos + 1) (c = '\n'))
      | none =>
          match s with
          | [] => []
          | c :: rest => finditerGo r mfuel ofuel rest (pos + 1) (c = '\n')

/-- `re.finditer` over `text` for a `^`-anchored MULTILINE pattern. -/
def pyFinditer (r : RE) (text : List Char) : List RMatch :=
  finditerGo r (reFuel text) (text.length + 1) text 0 true

/-- `m.group(n)` (`n = 0` is the whole match); `none` models Python `None`
for a group that did not participate in the match. -/
def RMatch.group (m : RMatch) (text : List Char) (n : Nat) : Option String :=
  if n = 0 then some ⟨(text.drop m.ms).take (m.me - m.ms)⟩
  else
    match capGet m.caps n with
    | some (s, e) => some ⟨(text.drop s).take (e - s)⟩
    | none => none

/-! ## The source's patterns

Transcribed from the compiled regular expressions at the top of
`traceroute_by_routing_tables.py`.  Group numbers follow the order of the
opening parentheses in the Python pattern. -/

/-- One octet pattern `\d\d?\d?`. -/
def reOctet : RE := rcat [.cc .digit, RE.opt (.cc .digit), RE.opt (.cc .digit)]

/-- `\d\d?\d?\.\d\d?\d?\.\d\d?\d?\.\d\d?\d?`. -/
def reDotted4 : RE :=
  rcat [reOctet, .cc (.lit '.'), reOctet, .cc (.lit '.'), reOctet, .cc (.lit '.'), reOctet]

/-- `(\/\d\d?)` — a slash prefix-length. -/
def reSlashLen : RE := rcat [.cc (.lit '/'), .cc .digit, RE.opt (.cc .digit)]

/-- The mask-or-prefix-length group body `(\/\d\d?)?|(\d\d?\d?\.…)?` with the
two inner groups numbered `g5` and `g6`. -/
def reMaskBody : RE := .alt (RE.opt (.grp 5 reSlashLen)) (RE.opt (.grp 6 reDotted4))

/-- `REGEXP_ROUTE_LOCAL_CONNECTED` (MULTILINE; the leading `^` is handled by
the finditer driver).  Groups: 1 `routeType` (the class `[L|C]`, which also
matches a literal bar), 2 the address+mask block, 3 `ipaddress`,
4 `maskOrPrefixLength`, 7 `interface`. -/
def reRouteLC : RE :=
  rcat [.grp 1 (.cc (.oneOf ['L', '|', 'C'])),
        RE.plus (.cc .space),
        .grp 2 (rcat [.grp 3 reDotted4, RE.opt (.cc .space), .grp 4 reMaskBody]),
        rstr " is directly connected, ",
        .grp 7 (RE.plus (.cc .nonspace))]

/-- `REGEXP_ROUTE` (MULTILINE).  Groups: 1 the route-type code
`(\S\S?\*?\s?\S?\S?)`, 2 the address+mask block, 3 `subnet`,
4 `maskOrPrefixLength`, 7 `viaPortion`, 8 the `[AD/metric]` block,
9 the via IP, 10 the line tail `(.*)`. -/
def reRoute : RE :=
  rcat [.grp 1 (rcat [.cc .nonspace, RE.opt (.cc .nonspace), RE.opt (.cc (.lit '*')),
                      RE.opt (.cc .space), RE.opt (.cc .nonspace), RE.opt (.cc .nonspace)]),
        RE.plus (.cc .space),
        .grp 2 (rcat [.grp 3 reDotted4, RE.opt (.cc .space), .grp 4 reMaskBody]),
        .star (.cc .space),
        .grp 7 (RE.plus (rcat
          [RE.opt (.cc (.lit '\n')),
           RE.plus (.cc .space),
           .grp 8 (rcat [.cc (.lit '['), .cc .digit, RE.opt (.cc .digit), RE.opt (.cc .digit),
                         .cc (.lit '/'), RE.plus (.cc .digit), .cc (.lit ']')]),
           RE.plus (.cc .space),
           rstr "via",
           RE.plus (.cc .space),
           .grp 9 reDotted4,
           .grp 10 (.star (.cc .anyc)),
           RE.opt (.cc (.lit '\n'))]))]

/-- `REGEXP_VIA_PORTION`: `.*via\s+(\d\d?\d?\.…\d\d?\d?).*` (used with
`re.match`, so anchored at the start only). -/
def reViaPortion : RE :=
  rcat [.star (.cc .anyc), rstr "via", RE.plus (.cc .space), .grp 1 reDotted4,
        .star (.cc .anyc)]

/-- `^\/\d\d?$` from `convert_netmask_to_prefix_length`. -/
def reSlashOnly : RE := rcat [reSlashLen, .dollar]

/-- `^\d\d?\d?\.\d\d?\d?\.\d\d?\d?\.\d\d?\d?$` from
`convert_netmask_to_prefix_length`. -/
def reDottedOnly : RE := rcat [reDotted4, .dollar]

/-! ## convert_netmask_to_prefix_length -/

/-- `convert_netmask_to_prefix_length(mask_or_pref)` from the source.  The
argument is an `Option String` because the call sites pass `m.group(...)`,
whose non-participating value is Python `None`; `if not mask_or_pref` treats
`None` and `""` alike.  `int(x)` cannot fail after the dotted pattern has
matched, so its defaulted value is never used. -/
def convert_netmask_to_prefix_length (mask_or_pref : Option String) : String :=
  match mask_or_pref with
  | none => ""
  | some s =>
      if s = "" then ""
      else if (pyMatch reSlashOnly s.toList).isSome then s
      else if (pyMatch reDottedOnly s.toList).isSome then
        "/" ++ toString (((pySplit s '.').map (fun x => countOnes ((pyInt x).getD 0))).foldl (· + ·) 0)
      else ""

/-! ## The longest-prefix-match trie

Modelled from the spec: the external `pytricia.PyTricia` structure used for
every `routing_table` and for `GLOBAL_INTERFACE_TREE` is not part of the
repository.  Following spec section 4.1, it is an associative structure
keyed by IPv4 CIDR keys with exact-key overwrite on insert and
most-specific-containing-key lookup; string keys without a mask are host
(/32) keys, and invalid key strings make the operations raise `ValueError`.
-/

/-- A CIDR key: the value of the top `len` address bits, plus `len`. -/
structure Cidr where
  net : Nat
  len : Nat
deriving DecidableEq, Repr

/-- Modelled from the spec: a trie is a list of `(key, value)` entries with
pairwise distinct keys (enforced by insertion). -/
abbrev Trie (α : Type) := List (Cidr × α)

/-- `p` contains the (possibly narrower) key `q`. -/
def cidrContains (p q : Cidr) : Bool :=
  p.len ≤ q.len && q.net / 2 ^ (q.len - p.len) = p.net

/-- A single octet: pure digits, value at most 255. -/
def pyOctet (s : String) : Option Nat :=
  if s.toList ≠ [] && s.toList.all Char.isDigit then
    match pyInt s with
    | some n => if n ≤ 255 then some n else none
    | none => none
  else none

/-- Helper for `parseCidr`: combine a dotted-quad part and a length part. -/
def parseCidrParts (addrPart lenPart : String) : Except PyErr Cidr :=
  match (pySplit addrPart '.').mapM pyOctet, pyInt lenPart with
  | some [a, b, c, d], some len =>
      if len ≤ 32 then
        .ok { net := (((a * 256 + b) * 256 + c) * 256 + d) / 2 ^ (32 - len), len := len }
      else .error .valueError
  | _, _ => .error .valueError

/-- Modelled from the spec: parse an IPv4 CIDR key string — four dotted
decimal octets `0..255` with an optional `/0../32` suffix (default `/32`);
anything else raises `ValueError`.  Host bits beyond the length are
canonicalised away. -/
def parseCidr (s : String) : Except PyErr Cidr :=
  match pySplit s '/' with
  | [addrPart] => parseCidrParts addrPart "32"
  | [addrPart, lenPart] => parseCidrParts addrPart lenPart
  | _ => .error .valueError

/-- Modelled from the spec: the most specific stored key containing `q`,
together with its value. -/
def trieBest {α : Type} (q : Cidr) : Trie α → Option (Cidr × α)
  | [] => none
  | e :: rest =>
      match trieBest q rest with
      | none => if cidrContains e.1 q then some e else none
      | some b => if cidrContains e.1 q && b.1.len < e.1.len then some e else some b

/-- Modelled from the spec: LPM lookup (`tree[key]` after a successful
containment test). -/
def trieLookup {α : Type} (t : Trie α) (q : Cidr) : Option α :=
  (trieBest q t).map (fun e => e.2)

/-- Modelled from the spec: exact-key overwrite insertion (`tree[key] = v`). -/
def trieInsert {α : Type} (t : Trie α) (k : Cidr) (v : α) : Trie α :=
  if t.any (fun e => e.1 = k) then
    t.map (fun e => if e.1 = k then (k, v) else e)
  else t ++ [(k, v)]

/-- String-keyed insertion as the Python code performs it. -/
def trieInsertS {α : Type} (t : Trie α) (s : String) (v : α) : Except PyErr (Trie α) :=
  match parseCidr s with
  | .error e => .error e
  | .ok k => .ok (trieInsert t k v)

/-! ## Routers, the registry and the resolver -/

/-- A parsed router: the result dictionary of `parse_show_ip_route_ios_like`.
Trie values are `(next_hops, original matched text)`. -/
structure Router where
  routing_table : Trie (List String × String)
  interface_list : List (String × String)
deriving DecidableEq, Repr

/-- The `ROUTERS` store: router id to router, insertion-ordered. -/
abbrev Registry := List (String × Router)

/-- The `GLOBAL_INTERFACE_TREE`: interface address to `(RID, interfaceID)`. -/
abbrev IfaceTree := Trie (String × String)

/-- One hop of a path: `(router id or a sentinel or None, matched route
string or None)`. -/
abbrev Hop := Option String × Option String

abbrev TrPath := List Hop

/-- Python dict access `ROUTERS[rid]` (`none` will become a `KeyError`). -/
def regLookup (reg : Registry) (rid : String) : Option Router :=
  (reg.find? (fun e => e.1 = rid)).map (fun e => e.2)

/-- `route_lookup(destination, router)` from the source: LPM containment
test, then LPM access; `(None, None)` when nothing contains the key. -/
def route_lookup (destination : String) (router : Router) :
    Except PyErr (Option (List String) × Option String) :=
  match parseCidr destination with
  | .error e => .error e
  | .ok k =>
      match trieLookup router.routing_table k with
      | some (nhs, raw) => .ok (some nhs, some raw)
      | none => .ok (none, none)

/-- `get_rid_by_interface_ip(interface_ip)` from the source (with the global
tree passed explicitly): the RID component of the resolved entry, or Python
`None` when the tree has no containing key. -/
def get_rid_by_interface_ip (tree : IfaceTree) (interface_ip : String) :
    Except PyErr (Option String) :=
  match parseCidr interface_ip with
  | .error e => .error e
  | .ok k =>
      match trieLookup tree k with
      | some v => .ok (some v.1)
      | none => .ok none

/-- `nexthop_is_local(next_hop)` from the source: Python returns `True` or
falls through to `None`; as a truth value that is exactly this `Bool`. -/
def nexthop_is_local (next_hop : String) : Bool :=
  ["Eth", "Fast", "Gig", "Ten", "Port",
   "Serial", "Vlan", "Tunn", "Loop", "Null"].any
    (fun t => pyStartswith next_hop t)

/-! ## The trace engine -/

/-- The `for nh in next_hop:` loop body of `trace_route`: resolve each next
hop in order; a next hop resolving into the current path makes the whole
call return just the loop-sentinel path; otherwise recurse (via `recurse`,
which the caller ties to the engine at one fuel step less) and accumulate the
returned paths. -/
def traceGo (recurse : Option String → List Hop → Except PyErr (List TrPath))
    (tree : IfaceTree) (path : List Hop) :
    List String → List TrPath → Except PyErr (List TrPath)
  | [], paths => .ok paths
  | nh :: rest, paths =>
      match get_rid_by_interface_ip tree nh with
      | .error e => .error e
      | .ok next_hop_rid =>
          if next_hop_rid ∈ path.map (fun r => r.1) then
            match next_hop_rid with
            | some r => .ok [path ++ [(some (r ++ "<<LOOP DETECTED"), none)]]
            | none => .error .typeError
          else
            match recurse next_hop_rid path with
            | .error e => .error e
            | .ok inner_path => traceGo recurse tree path rest (paths ++ inner_path)

/-- `trace_route(source_router_id, target_ip, path)` from the source, with
the globals `ROUTERS` and `GLOBAL_INTERFACE_TREE` passed explicitly and an
explicit recursion fuel.  `Except.error` models the Python exceptions
(`KeyError` for a registry miss, `ValueError` for an unparseable trie key,
`TypeError` for `None + str`), plus the artificial out-of-fuel marker, which
never occurs for fuel above the distinct-router bound (claim C2). -/
def trace_route_fuel (reg : Registry) (tree : IfaceTree) :
    Nat → Option String → String → List Hop → Except PyErr (List TrPath)
  | 0, _, _, _ => .error .outOfFuel
  | fuel + 1, source_router_id, target_ip, path =>
      match source_router_id with
      | none => .ok [path ++ [(none, none)]]
      | some rid =>
          if rid = "" then .ok [path ++ [(none, none)]]
          else
            match regLookup reg rid with
            | none => .error .keyError
            | some current_router =>
                match route_lookup target_ip current_router with
                | .error e => .error e
                | .ok (next_hop, raw_route_string) =>
                    let path := path ++ [(some rid, raw_route_string)]
                    match next_hop with
                    | none => .ok [path]
                    | some [] => .ok [path]
                    | some (nh0 :: nhrest) =>
                        if nexthop_is_local nh0 then .ok [path]
                        else
                          traceGo (fun r p => trace_route_fuel reg tree fuel r target_ip p)
                            tree path (nh0 :: nhrest) []

/-- `trace_route` with the fuel fixed above the bound that claim C2
establishes, so that the fuel marker can never occur. -/
def trace_route (reg : Registry) (tree : IfaceTree) (source_router_id : Option String)
    (target_ip : String) (path : List Hop) : Except PyErr (List TrPath) :=
  trace_route_fuel reg tree (reg.length + 2) source_router_id target_ip path

/-- A concrete CIDR value from dotted octets and a length. -/
def mkCidr (a b c d len : Nat) : Cidr :=
  { net := (((a * 256 + b) * 256 + c) * 256 + d) / 2 ^ (32 - len), len := len }

/-! ## The routing-table parser -/

/-- `m.group(n)` at the call sites where the Python code immediately uses the
result as a string: a `None` group value would raise `TypeError` there. -/
def groupE (m : RMatch) (text : List Char) (n : Nat) : Except PyErr String :=
  match m.group text n with
  | some s => .ok s
  | none => .error .typeError

/-- One iteration of the local/connected loop of
`parse_show_ip_route_ios_like`: build the key from `ipaddress` and the
normalised mask, store `((interface,), match_text)`, and append to
`interface_list` when the route type is `L`. -/
def parseLCStep (text : List Char)
    (acc : Trie (List String × String) × List (String × String)) (m : RMatch) :
    Except PyErr (Trie (List String × String) × List (String × String)) :=
  match groupE m text 3 with
  | .error e => .error e
  | .ok ipaddress =>
      let subnet := ipaddress ++ convert_netmask_to_prefix_length (m.group text 4)
      match groupE m text 7 with
      | .error e => .error e
      | .ok interface =>
          match groupE m text 0 with
          | .error e => .error e
          | .ok raw =>
              match trieInsertS acc.1 subnet ([interface], raw) with
              | .error e => .error e
              | .ok rt =>
                  .ok (rt, if m.group text 1 = some "L" then acc.2 ++ [(interface, subnet)]
                       else acc.2)

/-- `REGEXP_VIA_PORTION.match(line).group(1)`: a line with no `via` makes the
`match` return `None` and the `.group` attribute access raise. -/
def viaFromLine (line : String) : Except PyErr String :=
  match pyMatch reViaPortion line.toList with
  | some mv =>
      match mv.group line.toList 1 with
      | some ip => .ok ip
      | none => .error .typeError
  | none => .error .attributeError

/-- One line of the multi-via branch: skip empty lines, match the rest. -/
def viaAccLine (acc : List String) (line : String) : Except PyErr (List String) :=
  if line ≠ "" then
    match viaFromLine line with
    | .error e => .error e
    | .ok ip => .ok (acc ++ [ip])
  else .ok acc

/-- The via-portion scan of the static/dynamic loop: one `via` means a single
match on the whole portion, several mean one match per nonempty line. -/
def parseViaHops (via_portion : String) : Except PyErr (List String) :=
  if pyCount via_portion "via" > 1 then
    (pySplitlines via_portion).foldlM viaAccLine []
  else
    match viaFromLine via_portion with
    | .error e => .error e
    | .ok ip => .ok [ip]

/-- One iteration of the static/dynamic loop of
`parse_show_ip_route_ios_like`. -/
def parseRouteStep (text : List Char) (rt : Trie (List String × String)) (m : RMatch) :
    Except PyErr (Trie (List String × String)) :=
  match groupE m text 3 with
  | .error e => .error e
  | .ok subnetAddr =>
      let subnet := subnetAddr ++ convert_netmask_to_prefix_length (m.group text 4)
      match groupE m text 7 with
      | .error e => .error e
      | .ok via_portion =>
          match parseViaHops via_portion with
          | .error e => .error e
          | .ok next_hops =>
              match groupE m text 0 with
              | .error e => .error e
              | .ok raw => trieInsertS rt subnet (next_hops, raw)

/-- `parse_show_ip_route_ios_like(raw_routing_table)` from the source.
`.ok none` is the explicit parse-failure return `None` (no `L` record found);
`.error` models an escaping exception on malformed text. -/
def parse_show_ip_route_ios_like (raw_routing_table : String) :
    Except PyErr (Option Router) :=
  let text := raw_routing_table.toList
  match (pyFinditer reRouteLC text).foldlM (parseLCStep text) ([], []) with
  | .error e => .error e
  | .ok (route_tree, interface_list) =>
      if interface_list = [] then .ok none
      else
        match (pyFinditer reRoute text).foldlM (parseRouteStep text) route_tree with
        | .error e => .error e
        | .ok route_tree =>
            .ok (some { routing_table := route_tree, interface_list := interface_list })

/-- `parse_text_routing_table`: the parser-dispatch wrapper (returns the
router on success, falls through to `None` otherwise). -/
def parse_text_routing_table (raw : String) : Except PyErr (Option Router) :=
  match parse_show_ip_route_ios_like raw with
  | .error e => .error e
  | .ok (some r) => .ok (some r)
  | .ok none => .ok none

/-! ## The directory loader -/

/-- Python dict assignment `new_routers[router_id] = new_router`. -/
def regSet (reg : Registry) (rid : String) (r : Router) : Registry :=
  if reg.any (fun e => e.1 = rid) then
    reg.map (fun e => if e.1 = rid then (rid, r) else e)
  else reg ++ [(rid, r)]

/-- One file iteration of `do_parse_directory`: parse `.txt` files, insert
the parsed router under the extension-stripped filename, then register each
`local_interfaces` entry in the global interface tree. -/
def loadFileStep (acc : Registry × IfaceTree) (file : String × String) :
    Except PyErr (Registry × IfaceTree) :=
  if pyEndswith file.1 ".txt" then
    match parse_text_routing_table file.2 with
    | .error e => .error e
    | .ok new_router =>
        let router_id := pyReplaceDrop file.1 ".txt"
        match new_router with
        | some router =>
            match (if router.interface_list ≠ [] then
                     router.interface_list.foldlM
                       (fun t e => trieInsertS t e.2 (router_id, e.1)) acc.2
                   else .ok acc.2) with
            | .error e => .error e
            | .ok tr => .ok (regSet acc.1 router_id router, tr)
        | none => .ok acc
  else .ok acc

/-- `do_parse_directory` over an abstract directory listing of
`(filename, file text)` pairs (reading the directory itself is an external
collaborator) and the initial state of the global interface tree: returns
`new_routers` (`none` when no file parsed) and the final tree state. -/
def do_parse_directory (files : List (String × String)) (tree0 : IfaceTree) :
    Except PyErr (Option Registry × IfaceTree) :=
  match files.foldlM loadFileStep ([], tree0) with
  | .error e => .error e
  | .ok (new_routers, tree) =>
      if new_routers = [] then .ok (none, tree)
      else .ok (some new_routers, tree)

/-! ## Helper lemmas -/

theorem trieBest_none {α : Type} {q : Cidr} {t : Trie α}
    (h : trieBest q t = none) : ∀ e ∈ t, cidrContains e.1 q = false := by
  induction t with
  | nil => intro e he; cases he
  | cons a rest ih =>
      intro e he
      cases hb : trieBest q rest with
      | none =>
          simp only [trieBest, hb] at h
          split at h
          · cases h
          · next hc =>
              rcases List.mem_cons.mp he with rfl | hmem
              · simpa using hc
              · exact ih hb e hmem
      | some b =>
          simp only [trieBest, hb] at h
          split at h <;> cases h

theorem trieBest_mem {α : Type} {q : Cidr} {t : Trie α} {e : Cidr × α}
    (h : trieBest q t = some e) : e ∈ t ∧ cidrContains e.1 q = true := by
  induction t with
  | nil => cases h
  | cons a rest ih =>
      cases hb : trieBest q rest with
      | none =>
          simp only [trieBest, hb] at h
          split at h
          · next hc => cases h; exact ⟨List.mem_cons_self _ _, hc⟩
          · cases h
      | some b =>
          simp only [trieBest, hb] at h
          split at h
          · next hc =>
              simp only [Bool.and_eq_true, decide_eq_true_eq] at hc
              cases h
              exact ⟨List.mem_cons_self _ _, hc.1⟩
          · cases h
            rcases ih hb with ⟨hm, hcb⟩
            exact ⟨List.mem_cons_of_mem a hm, hcb⟩

theorem trieBest_max {α : Type} {q : Cidr} {t : Trie α} {e : Cidr × α}
    (h : trieBest q t = some e) :
    ∀ e' ∈ t, cidrContains e'.1 q = true → e'.1.len ≤ e.1.len := by
  induction t generalizing e with
  | nil => cases h
  | cons a rest ih =>
      intro e' he' hc'
      cases hb : trieBest q rest with
      | none =>
          simp only [trieBest, hb] at h
          split at h
          · next hc =>
              cases h
              rcases List.mem_cons.mp he' with rfl | hmem
              · exact le_refl _
              · rw [trieBest_none hb e' hmem] at hc'; cases hc'
          · cases h
      | some b =>
          simp only [trieBest, hb] at h
          split at h
          · next hc =>
              simp only [Bool.and_eq_true, decide_eq_true_eq] at hc
              cases h
              rcases List.mem_cons.mp he' with rfl | hmem
              · exact le_refl _
              · exact le_of_lt (lt_of_le_of_lt (ih hb e' hmem hc') hc.2)
          · next hc =>
              cases h
              rcases List.mem_cons.mp he' with rfl | hmem
              · by_cases hlt : e.1.len < e'.1.len
                · exact absurd (by simp [hc', hlt]) hc
                · exact Nat.le_of_not_lt hlt
              · exact ih hb e' hmem hc'

theorem parseCidrParts_error {a l : String} {e : PyErr}
    (h : parseCidrParts a l = .error e) : e = .valueError := by
  rw [parseCidrParts] at h
  split at h
  · split at h
    · cases h
    · cases h; rfl
  · cases h; rfl

theorem parseCidr_error {s : String} {e : PyErr}
    (h : parseCidr s = .error e) : e = .valueError := by
  rw [parseCidr] at h
  split at h
  · exact parseCidrParts_error h
  · exact parseCidrParts_error h
  · cases h; rfl

theorem trieInsertS_error {α : Type} {t : Trie α} {s : String} {v : α} {e : PyErr}
    (h : trieInsertS t s v = .error e) : e = .valueError := by
  rw [trieInsertS] at h
  split at h
  · next heq => cases h; exact parseCidr_error heq
  · cases h

theorem route_lookup_error {d : String} {r : Router} {e : PyErr}
    (h : route_lookup d r = .error e) : e = .valueError := by
  rw [route_lookup] at h
  split at h
  · next heq => cases h; exact parseCidr_error heq
  · split at h <;> cases h

theorem get_rid_error {tree : IfaceTree} {ip : String} {e : PyErr}
    (h : get_rid_by_interface_ip tree ip = .error e) : e = .valueError := by
  rw [get_rid_by_interface_ip] at h
  split at h
  · next heq => cases h; exact parseCidr_error heq
  · split at h <;> cases h

/-- Step shape of the engine at positive fuel for a non-falsy router id. -/
theorem trace_route_fuel_succ (reg : Registry) (tree : IfaceTree) (fuel : Nat)
    (rid : String) (tgt : String) (path : List Hop) :
    trace_route_fuel reg tree (fuel + 1) (some rid) tgt path =
      if rid = "" then .ok [path ++ [(none, none)]]
      else
        match regLookup reg rid with
        | none => .error .keyError
        | some current_router =>
            match route_lookup tgt current_router with
            | .error e => .error e
            | .ok (next_hop, raw) =>
                match next_hop with
                | none => .ok [path ++ [(some rid, raw)]]
                | some [] => .ok [path ++ [(some rid, raw)]]
                | some (nh0 :: nhrest) =>
                    if nexthop_is_local nh0 then .ok [path ++ [(some rid, raw)]]
                    else
                      traceGo (fun r p => trace_route_fuel reg tree fuel r tgt p)
                        tree (path ++ [(some rid, raw)]) (nh0 :: nhrest) [] := by
  rw [trace_route_fuel]

/-- Every path returned by the loop body extends the path argument, given
that the recursion does the same. -/
theorem traceGo_extend
    (recurse : Option String → List Hop → Except PyErr (List TrPath))
    (hrec : ∀ r p res, recurse r p = .ok res → ∀ q ∈ res, ∃ t, q = p ++ t)
    (tree : IfaceTree) (path : List Hop) :
    ∀ nhs acc res, traceGo recurse tree path nhs acc = .ok res →
      (∀ q ∈ acc, ∃ t, q = path ++ t) → ∀ q ∈ res, ∃ t, q = path ++ t := by
  intro nhs
  induction nhs with
  | nil =>
      intro acc res h hacc
      rw [traceGo] at h
      cases h
      exact hacc
  | cons nh rest ih =>
      intro acc res h hacc
      rw [traceGo] at h
      split at h
      · cases h
      · split at h
        · split at h
          · cases h
            intro q hq
            rcases List.mem_singleton.mp hq with rfl
            exact ⟨_, rfl⟩
          · cases h
        · split at h
          · cases h
          · next inner heq2 =>
              refine ih _ _ h ?_
              intro q hq
              rcases List.mem_append.mp hq with h1 | h2
              · exact hacc q h1
              · exact hrec _ _ _ heq2 q h2

/-- Every path returned by `trace_route_fuel` extends the path argument. -/
theorem trace_extend (fuel : Nat) :
    ∀ (reg : Registry) (tree : IfaceTree) (tgt : String) (rid : Option String)
      (path : List Hop) (res : List TrPath),
      trace_route_fuel reg tree fuel rid tgt path = .ok res →
      ∀ q ∈ res, ∃ t, q = path ++ t := by
  induction fuel with
  | zero =>
      intro reg tree tgt rid path res h
      rw [trace_route_fuel] at h
      cases h
  | succ fuel ih =>
      intro reg tree tgt rid path res h q hq
      cases rid with
      | none =>
          rw [trace_route_fuel] at h
          cases h
          rcases List.mem_singleton.mp hq with rfl
          exact ⟨_, rfl⟩
      | some rid =>
          rw [trace_route_fuel_succ] at h
          by_cases hrid : rid = ""
          · rw [if_pos hrid] at h
            cases h
            rcases List.mem_singleton.mp hq with rfl
            exact ⟨_, rfl⟩
          · rw [if_neg hrid] at h
            split at h
            · cases h
            · split at h
              · cases h
              · split at h
                · cases h
                  rcases List.mem_singleton.mp hq with rfl
                  exact ⟨_, rfl⟩
                · cases h
                  rcases List.mem_singleton.mp hq with rfl
                  exact ⟨_, rfl⟩
                · split at h
                  · cases h
                    rcases List.mem_singleton.mp hq with rfl
                    exact ⟨_, rfl⟩
                  · have hext := traceGo_extend _
                      (fun r p res hr => ih reg tree tgt r p res hr) tree _ _ _ _ h
                      (by intro q hq; cases hq)
                    rcases hext q hq with ⟨t, rfl⟩
                    exact ⟨_, by rw [List.append_assoc]⟩

/-! ## A small concrete topology used by witnesses and counterexamples

Router `A` routes the target subnet to two transit next hops: the first
resolves to router `B` (which terminates locally), the second resolves back
to `A` itself. -/

def routerA : Router :=
  { routing_table := [(mkCidr 10 99 0 0 16, (["10.0.1.2", "10.0.0.1"], "rawA"))],
    interface_list := [("Eth1", "10.0.0.1/32")] }

def routerB : Router :=
  { routing_table := [(mkCidr 10 99 0 0 16, (["Eth0"], "rawB"))],
    interface_list := [("Eth0", "10.0.1.2/32")] }

def exampleRegistry : Registry := [("A", routerA), ("B", routerB)]

def exampleTree : IfaceTree :=
  [(mkCidr 10 0 1 2 32, ("B", "Eth0")), (mkCidr 10 0 0 1 32, ("A", "Eth1"))]

/-! ## Claim theorems -/

/-- C6: when `trace_route` is invoked with an absent `source_router_id`, it
returns exactly one path — the path-so-far extended with a single no-match
sentinel hop `(None, None)` — as an ordinary return value, never an
exception. -/
theorem c6_absent_source_returns_single_no_match_path
    (reg : Registry) (tree : IfaceTree) (target_ip : String) (path : List Hop) :
    trace_route reg tree none target_ip path = .ok [path ++ [(none, none)]] := by
  rw [trace_route, show reg.length + 2 = reg.length + 1 + 1 from rfl, trace_route_fuel]

/-- C7: if the routing-table lookup for the target matches and the first next
hop of the matched entry is a local interface name, `trace_route` returns
exactly one path — the path-so-far extended with this router's hop — with no
further recursion. -/
theorem c7_local_first_next_hop_terminates
    (reg : Registry) (tree : IfaceTree) (rid : String) (router : Router)
    (tgt raw nh0 : String) (nhrest : List String) (path : List Hop)
    (hne : rid ≠ "")
    (hreg : regLookup reg rid = some router)
    (hlook : route_lookup tgt router = .ok (some (nh0 :: nhrest), some raw))
    (hloc : nexthop_is_local nh0 = true) :
    trace_route reg tree (some rid) tgt path = .ok [path ++ [(some rid, some raw)]] := by
  rw [trace_route, show reg.length + 2 = reg.length + 1 + 1 from rfl, trace_route_fuel_succ]
  simp only [if_neg hne, hreg, hlook, if_pos hloc]

/-- Witness for C7 on the concrete topology: router `B`'s matched entry has
the local interface name `Eth0` as its first next hop. -/
theorem c7_witness :
    trace_route exampleRegistry exampleTree (some "B") "10.99.0.1" [] =
      .ok [[(some "B", some "rawB")]] :=
  c7_local_first_next_hop_terminates exampleRegistry exampleTree "B" routerB
    "10.99.0.1" "rawB" "Eth0" [] [] (by decide) (by decide) (by decide) (by decide)

/-- C1 counterexample: on the concrete topology, router `A`'s matched entry
fans out to the loop-free branch through `B` first (which, called exactly as
the engine calls it, returns the `A → B` path) and only then hits the loop
branch — yet the overall result contains only the loop-sentinel path: the
loop-free branch's path is not included in the returned set. -/
theorem c1_counterexample :
    trace_route exampleRegistry exampleTree (some "A") "10.99.0.1" [] =
      .ok [[(some "A", some "rawA"), (some "A<<LOOP DETECTED", none)]] ∧
    trace_route exampleRegistry exampleTree (some "B") "10.99.0.1"
        [(some "A", some "rawA")] =
      .ok [[(some "A", some "rawA"), (some "B", some "rawB")]] ∧
    [(some "A", some "rawA"), (some "B", some "rawB")] ∉
      [[(some "A", some "rawA"), (some "A<<LOOP DETECTED", none)]] := by
  refine ⟨by decide, by decide, by decide⟩

/-- The next-hop loop, upon the first hop that resolves into the current
path, returns only the loop-sentinel path: the accumulator (earlier
branches' paths) is dropped and later hops are not visited. -/
theorem traceGo_loop_returns
    (recurse : Option String → List Hop → Except PyErr (List TrPath))
    (tree : IfaceTree) (path : List Hop) (nhLoop rLoop : String) (post : List String)
    (hloop : get_rid_by_interface_ip tree nhLoop = .ok (some rLoop))
    (hmem : some rLoop ∈ path.map (fun r => r.1)) :
    ∀ pre acc,
      (∀ nh ∈ pre, ∃ r', get_rid_by_interface_ip tree nh = .ok r' ∧
        r' ∉ path.map (fun r => r.1) ∧ ∃ res, recurse r' path = .ok res) →
      traceGo recurse tree path (pre ++ nhLoop :: post) acc =
        .ok [path ++ [(some (rLoop ++ "<<LOOP DETECTED"), none)]] := by
  intro pre
  induction pre with
  | nil =>
      intro acc _
      rw [List.nil_append, traceGo]
      simp only [hloop, if_pos hmem]
  | cons nh pres ih =>
      intro acc hpre
      rcases hpre nh (List.mem_cons_self _ _) with ⟨r', hg, hnm, res, hr⟩
      rw [List.cons_append, traceGo]
      simp only [hg, if_neg hnm, hr]
      exact ih _ (fun nh' hnh' => hpre nh' (List.mem_cons_of_mem _ hnh'))

/-- C1 (amended): when a route entry's next hops are transit IPs, branches
are explored left to right; as soon as some next hop resolves to a router id
already present in the path-so-far, the whole call returns only the
loop-sentinel path — the paths of the earlier loop-free branches are
discarded and the remaining next hops are not explored.  (All branches'
paths are unioned only when no next hop resolves into the current path.) -/
theorem c1_amended_loop_discards_other_branches
    (reg : Registry) (tree : IfaceTree) (fuel : Nat) (rid : String) (router : Router)
    (tgt raw nh0 : String) (nhrest pre post : List String) (nhLoop rLoop : String)
    (path : List Hop)
    (hne : rid ≠ "")
    (hreg : regLookup reg rid = some router)
    (hlook : route_lookup tgt router = .ok (some (nh0 :: nhrest), some raw))
    (hnotloc : nexthop_is_local nh0 = false)
    (hsplit : nh0 :: nhrest = pre ++ nhLoop :: post)
    (hpre : ∀ nh ∈ pre, ∃ r', get_rid_by_interface_ip tree nh = .ok r' ∧
        r' ∉ (path ++ [(some rid, some raw)]).map (fun r => r.1) ∧
        ∃ res, trace_route_fuel reg tree fuel r' tgt (path ++ [(some rid, some raw)]) = .ok res)
    (hloop : get_rid_by_interface_ip tree nhLoop = .ok (some rLoop))
    (hmem : some rLoop ∈ (path ++ [(some rid, some raw)]).map (fun r => r.1)) :
    trace_route_fuel reg tree (fuel + 1) (some rid) tgt path =
      .ok [(path ++ [(some rid, some raw)]) ++
            [(some (rLoop ++ "<<LOOP DETECTED"), none)]] := by
  rw [trace_route_fuel_succ]
  have hcond : ¬ (nexthop_is_local nh0 = true) := by
    rw [hnotloc]; exact Bool.false_ne_true
  simp only [if_neg hne, hreg, hlook, if_neg hcond]
  rw [hsplit]
  exact traceGo_loop_returns _ tree _ nhLoop rLoop post hloop hmem pre [] hpre

/-- Witness for the amended C1 on the concrete topology. -/
theorem c1_witness :
    trace_route_fuel exampleRegistry exampleTree 3 (some "A") "10.99.0.1" [] =
      .ok [([] ++ [(some "A", some "rawA")]) ++ [(some ("A" ++ "<<LOOP DETECTED"), none)]] :=
  c1_amended_loop_discards_other_branches exampleRegistry exampleTree 2 "A" routerA
    "10.99.0.1" "rawA" "10.0.1.2" ["10.0.0.1"] ["10.0.1.2"] [] "10.0.0.1" "A" []
    (by decide) (by decide) (by decide) (by decide) (by decide)
    (by
      intro nh hnh
      rcases List.mem_singleton.mp hnh with rfl
      exact ⟨some "B", by decide, by decide,
        [[(some "A", some "rawA"), (some "B", some "rawB")]], by decide⟩)
    (by decide) (by decide)

/-! ## Termination measure for the trace engine -/

/-- The number of distinct registry router ids. -/
def distinctRouterCount (reg : Registry) : Nat :=
  (reg.map (fun e => e.1)).toFinset.card

/-- The number of distinct registry router ids not yet on the path. -/
def remRouters (reg : Registry) (path : List Hop) : Nat :=
  ((reg.map (fun e => e.1)).toFinset.filter
    (fun k => some k ∉ path.map (fun r => r.1))).card

/-- Extra fuel needed when the entry router id already sits on the path
(the only case in which a recursion step does not shrink `remRouters`). -/
def dupPenalty (reg : Registry) (rid : Option String) (path : List Hop) : Nat :=
  match rid with
  | some k => if (regLookup reg k).isSome ∧ some k ∈ path.map (fun r => r.1) then 1 else 0
  | none => 0

theorem regLookup_isSome_iff (reg : Registry) (rid : String) :
    (regLookup reg rid).isSome ↔ rid ∈ reg.map (fun e => e.1) := by
  rw [regLookup, Option.isSome_map', List.find?_isSome]
  simp only [decide_eq_true_eq, List.mem_map]

theorem remRouters_le (reg : Registry) (path : List Hop) :
    remRouters reg path ≤ distinctRouterCount reg :=
  Finset.card_filter_le _ _

theorem dupPenalty_le (reg : Registry) (rid : Option String) (path : List Hop) :
    dupPenalty reg rid path ≤ 1 := by
  cases rid with
  | none => exact Nat.zero_le 1
  | some k =>
      rw [dupPenalty]
      split
      · exact le_refl 1
      · exact Nat.zero_le 1

theorem remRouters_append_mem (reg : Registry) (path : List Hop) (rid : String)
    (x : Option String) (hmem : some rid ∈ path.map (fun r => r.1)) :
    remRouters reg (path ++ [(some rid, x)]) = remRouters reg path := by
  rw [remRouters, remRouters]
  congr 1
  apply Finset.filter_congr
  intro k _
  simp only [List.map_append, List.mem_append, List.map_cons, List.map_nil,
    List.mem_singleton, Option.some.injEq, decide_eq_decide]
  constructor
  · intro hn hk; exact hn (Or.inl hk)
  · rintro hn (hk | rfl)
    · exact hn hk
    · exact hn hmem

theorem remRouters_append_fresh (reg : Registry) (path : List Hop) (rid : String)
    (x : Option String) (hk : (regLookup reg rid).isSome)
    (hfresh : some rid ∉ path.map (fun r => r.1)) :
    remRouters reg (path ++ [(some rid, x)]) + 1 = remRouters reg path := by
  have hkeys : rid ∈ (reg.map (fun e => e.1)).toFinset :=
    List.mem_toFinset.mpr ((regLookup_isSome_iff reg rid).mp hk)
  have hfil : rid ∈ (reg.map (fun e => e.1)).toFinset.filter
      (fun k => some k ∉ path.map (fun r => r.1)) :=
    Finset.mem_filter.mpr ⟨hkeys, hfresh⟩
  have hset : ((reg.map (fun e => e.1)).toFinset.filter
        (fun k => some k ∉ (path ++ [(some rid, x)]).map (fun r => r.1)))
      = ((reg.map (fun e => e.1)).toFinset.filter
        (fun k => some k ∉ path.map (fun r => r.1))).erase rid := by
    ext k
    simp only [Finset.mem_filter, Finset.mem_erase, List.map_append, List.mem_append,
      List.map_cons, List.map_nil, List.mem_singleton, Option.some.injEq]
    constructor
    · rintro ⟨hkk, hn⟩
      exact ⟨fun he => hn (Or.inr he), hkk, fun hm => hn (Or.inl hm)⟩
    · rintro ⟨hne, hkk, hn⟩
      exact ⟨hkk, fun hor => hor.elim hn hne⟩
  rw [remRouters, remRouters, hset, Finset.card_erase_of_mem hfil]
  have hpos : 0 < ((reg.map (fun e => e.1)).toFinset.filter
      (fun k => some k ∉ path.map (fun r => r.1))).card :=
    Finset.card_pos.mpr ⟨rid, hfil⟩
  omega

/-- The next-hop loop cannot run out of fuel if the recursion it is handed
cannot (for the router ids that pass the loop check). -/
theorem traceGo_no_fuel
    (recurse : Option String → List Hop → Except PyErr (List TrPath))
    (tree : IfaceTree) (path : List Hop)
    (hrec : ∀ r', r' ∉ path.map (fun r => r.1) →
      recurse r' path ≠ .error .outOfFuel) :
    ∀ nhs acc, traceGo recurse tree path nhs acc ≠ .error .outOfFuel := by
  intro nhs
  induction nhs with
  | nil => intro acc h; rw [traceGo] at h; cases h
  | cons nh rest ih =>
      intro acc h
      rw [traceGo] at h
      split at h
      · next heq => rw [get_rid_error heq] at h; cases h
      · next nhr heq =>
          split at h
          · split at h
            · cases h
            · cases h
          · next hnm =>
              split at h
              · next heq2 => exact hrec nhr hnm (heq2 ▸ h ▸ (h ▸ rfl))
              · exact ih _ h

/-- The engine never runs out of fuel above the distinct-router measure. -/
theorem trace_no_fuel (reg : Registry) (tree : IfaceTree) (tgt : String) :
    ∀ (fuel : Nat) (rid : Option String) (path : List Hop),
      remRouters reg path + dupPenalty reg rid path < fuel →
      trace_route_fuel reg tree fuel rid tgt path ≠ .error .outOfFuel := by
  intro fuel
  induction fuel with
  | zero => intro rid path h; omega
  | succ fuel ih =>
      intro rid path h
      cases rid with
      | none => rw [trace_route_fuel]; intro hc; cases hc
      | some rid =>
          rw [trace_route_fuel_succ]
          by_cases hrid : rid = ""
          · rw [if_pos hrid]; intro hc; cases hc
          · rw [if_neg hrid]
            split
            · intro hc; cases hc
            · next cr hreg =>
                split
                · next e hlk =>
                    rw [route_lookup_error hlk]
                    intro hc; cases hc
                · next nh? raw hlk =>
                    split
                    · intro hc; cases hc
                    · intro hc; cases hc
                    · next nh0 nhrest =>
                        split
                        · intro hc; cases hc
                        · apply traceGo_no_fuel
                          intro r' hnm
                          apply ih
                          have hpen0 : dupPenalty reg r' (path ++ [(some rid, raw)]) = 0 := by
                            cases r' with
                            | none => rfl
                            | some k =>
                                rw [dupPenalty, if_neg]
                                rintro ⟨_, hk⟩
                                exact hnm hk
                          rw [hpen0]
                          have hkey : (regLookup reg rid).isSome := by
                            rw [hreg]; rfl
                          by_cases hdup : some rid ∈ path.map (fun r => r.1)
                          · have heq := remRouters_append_mem reg path rid raw hdup
                            have hpen1 : dupPenalty reg (some rid) path = 1 := by
                              rw [dupPenalty, if_pos ⟨hkey, hdup⟩]
                            rw [hpen1] at h
                            omega
                          · have heq := remRouters_append_fresh reg path rid raw hkey hdup
                            have hpen1 : dupPenalty reg (some rid) path = 0 := by
                              rw [dupPenalty, if_neg]
                              rintro ⟨_, hk⟩
                              exact hdup hk
                            rw [hpen1] at h
                            omega

/-- The next-hop loop is insensitive to the recursion function, as long as
both recursions agree on the router ids that pass the loop check. -/
theorem traceGo_congr
    (rec₁ rec₂ : Option String → List Hop → Except PyErr (List TrPath))
    (tree : IfaceTree) (path : List Hop)
    (hrec : ∀ r', r' ∉ path.map (fun r => r.1) → rec₁ r' path = rec₂ r' path) :
    ∀ nhs acc, traceGo rec₁ tree path nhs acc = traceGo rec₂ tree path nhs acc := by
  intro nhs
  induction nhs with
  | nil => intro acc; rw [traceGo, traceGo]
  | cons nh rest ih =>
      intro acc
      rw [traceGo, traceGo]
      cases hg : get_rid_by_interface_ip tree nh with
      | error e => rfl
      | ok r' =>
          dsimp only
          by_cases hm : r' ∈ path.map (fun r => r.1)
          · rw [if_pos hm, if_pos hm]
          · rw [if_neg hm, if_neg hm, hrec r' hm]
            cases hr : rec₂ r' path with
            | error e => rfl
            | ok inner => exact ih _

/-- Above the distinct-router measure, the engine's result does not depend
on the fuel. -/
theorem trace_fuel_stable (reg : Registry) (tree : IfaceTree) (tgt : String) :
    ∀ (f₁ f₂ : Nat) (rid : Option String) (path : List Hop),
      remRouters reg path + dupPenalty reg rid path < f₁ →
      remRouters reg path + dupPenalty reg rid path < f₂ →
      trace_route_fuel reg tree f₁ rid tgt path =
        trace_route_fuel reg tree f₂ rid tgt path := by
  intro f₁
  induction f₁ with
  | zero => intro f₂ rid path h₁ h₂; omega
  | succ f₁ ih =>
      intro f₂ rid path h₁ h₂
      cases f₂ with
      | zero => omega
      | succ f₂ =>
          cases rid with
          | none => rw [trace_route_fuel, trace_route_fuel]
          | some rid =>
              rw [trace_route_fuel_succ, trace_route_fuel_succ]
              by_cases hrid : rid = ""
              · rw [if_pos hrid, if_pos hrid]
              · rw [if_neg hrid, if_neg hrid]
                cases hreg : regLookup reg rid with
                | none => rfl
                | some cr =>
                    dsimp only
                    cases hlk : route_lookup tgt cr with
                    | error e => rfl
                    | ok pr =>
                        rcases pr with ⟨nh?, raw⟩
                        dsimp only
                        cases nh? with
                        | none => rfl
                        | some nhl =>
                            cases nhl with
                            | nil => rfl
                            | cons nh0 nhrest =>
                                dsimp only
                                by_cases hloc : nexthop_is_local nh0 = true
                                · rw [if_pos hloc, if_pos hloc]
                                · rw [if_neg hloc, if_neg hloc]
                                  apply traceGo_congr
                                  intro r' hnm
                                  apply ih
                                  · have hpen0 : dupPenalty reg r'
                                        (path ++ [(some rid, raw)]) = 0 := by
                                      cases r' with
                                      | none => rfl
                                      | some k =>
                                          rw [dupPenalty, if_neg]
                                          rintro ⟨_, hk⟩
                                          exact hnm hk
                                    rw [hpen0]
                                    have hkey : (regLookup reg rid).isSome := by
                                      rw [hreg]; rfl
                                    by_cases hdup : some rid ∈ path.map (fun r => r.1)
                                    · have heq := remRouters_append_mem reg path rid raw hdup
                                      have hpen1 : dupPenalty reg (some rid) path = 1 := by
                                        rw [dupPenalty, if_pos ⟨hkey, hdup⟩]
                                      rw [hpen1] at h₁
                                      omega
                                    · have heq := remRouters_append_fresh reg path rid raw hkey hdup
                                      have hpen1 : dupPenalty reg (some rid) path = 0 := by
                                        rw [dupPenalty, if_neg]
                                        rintro ⟨_, hk⟩
                                        exact hdup hk
                                      rw [hpen1] at h₁
                                      omega
                                  · have hpen0 : dupPenalty reg r'
                                        (path ++ [(some rid, raw)]) = 0 := by
                                      cases r' with
                                      | none => rfl
                                      | some k =>
                                          rw [dupPenalty, if_neg]
                                          rintro ⟨_, hk⟩
                                          exact hnm hk
                                    rw [hpen0]
                                    have hkey : (regLookup reg rid).isSome := by
                                      rw [hreg]; rfl
                                    by_cases hdup : some rid ∈ path.map (fun r => r.1)
                                    · have heq := remRouters_append_mem reg path rid raw hdup
                                      have hpen1 : dupPenalty reg (some rid) path = 1 := by
                                        rw [dupPenalty, if_pos ⟨hkey, hdup⟩]
                                      rw [hpen1] at h₂
                                      omega
                                    · have heq := remRouters_append_fresh reg path rid raw hkey hdup
                                      have hpen1 : dupPenalty reg (some rid) path = 0 := by
                                        rw [dupPenalty, if_neg]
                                        rintro ⟨_, hk⟩
                                        exact hdup hk
                                      rw [hpen1] at h₂
                                      omega

/-- C2: `trace_route` terminates for every registry and target — recursion
happens only when the candidate router id is not already among the path's
router ids, so the recursion depth is bounded by the number of distinct
routers in the registry: above that bound the fuelled engine never reports
fuel exhaustion and its value no longer depends on the fuel, and
`trace_route` itself computes that stable value. -/
theorem c2_trace_route_terminates
    (reg : Registry) (tree : IfaceTree) (tgt : String) (rid : Option String)
    (path : List Hop) (f₁ f₂ : Nat)
    (h₁ : distinctRouterCount reg + 2 ≤ f₁)
    (h₂ : distinctRouterCount reg + 2 ≤ f₂) :
    trace_route_fuel reg tree f₁ rid tgt path =
        trace_route_fuel reg tree f₂ rid tgt path ∧
    trace_route_fuel reg tree f₁ rid tgt path ≠ .error .outOfFuel ∧
    trace_route reg tree rid tgt path = trace_route_fuel reg tree f₁ rid tgt path := by
  have hb : remRouters reg path + dupPenalty reg rid path < distinctRouterCount reg + 2 := by
    have hr := remRouters_le reg path
    have hp := dupPenalty_le reg rid path
    omega
  have hw : distinctRouterCount reg + 2 ≤ reg.length + 2 := by
    have hle : distinctRouterCount reg ≤ reg.length := by
      rw [distinctRouterCount]
      calc (reg.map (fun e => e.1)).toFinset.card
          ≤ (reg.map (fun e => e.1)).length := (reg.map (fun e => e.1)).toFinset_card_le
        _ = reg.length := List.length_map _ _
    omega
  refine ⟨trace_fuel_stable reg tree tgt f₁ f₂ rid path
      (lt_of_lt_of_le hb h₁) (lt_of_lt_of_le hb h₂),
    trace_no_fuel reg tree tgt f₁ rid path (lt_of_lt_of_le hb h₁), ?_⟩
  rw [trace_route]
  exact trace_fuel_stable reg tree tgt (reg.length + 2) f₁ rid path
    (lt_of_lt_of_le hb hw) (lt_of_lt_of_le hb h₁)

/-- Witness for C2 at the concrete two-router topology. -/
theorem c2_witness :
    trace_route_fuel exampleRegistry exampleTree 4 (some "A") "10.99.0.1" [] =
        trace_route_fuel exampleRegistry exampleTree 17 (some "A") "10.99.0.1" [] ∧
    trace_route_fuel exampleRegistry exampleTree 4 (some "A") "10.99.0.1" [] ≠
        .error .outOfFuel ∧
    trace_route exampleRegistry exampleTree (some "A") "10.99.0.1" [] =
        trace_route_fuel exampleRegistry exampleTree 4 (some "A") "10.99.0.1" [] :=
  c2_trace_route_terminates exampleRegistry exampleTree "10.99.0.1" (some "A") [] 4 17
    (by decide) (by decide)

/-- C5: a route entry with exactly two transit next hops that resolve to two
distinct routers, neither already on the path, fans out into two branches
explored in next-hop order: one `trace_route` call returns exactly the two
branch paths, in order, and both share the hops up to the fan-out point
(the path-so-far extended with this router's hop). -/
theorem c5_ecmp_two_branches
    (reg : Registry) (tree : IfaceTree) (rid : String) (router : Router)
    (tgt raw nh1 nh2 rB rC : String) (path pB pC : List Hop)
    (hne : rid ≠ "")
    (hreg : regLookup reg rid = some router)
    (hlook : route_lookup tgt router = .ok (some [nh1, nh2], some raw))
    (hnotloc : nexthop_is_local nh1 = false)
    (hg1 : get_rid_by_interface_ip tree nh1 = .ok (some rB))
    (hg2 : get_rid_by_interface_ip tree nh2 = .ok (some rC))
    (hdistinct : rB ≠ rC)
    (hnm1 : some rB ∉ (path ++ [(some rid, some raw)]).map (fun r => r.1))
    (hnm2 : some rC ∉ (path ++ [(some rid, some raw)]).map (fun r => r.1))
    (htB : trace_route reg tree (some rB) tgt (path ++ [(some rid, some raw)]) = .ok [pB])
    (htC : trace_route reg tree (some rC) tgt (path ++ [(some rid, some raw)]) = .ok [pC]) :
    trace_route reg tree (some rid) tgt path = .ok [pB, pC] ∧
    (∃ t, pB = (path ++ [(some rid, some raw)]) ++ t) ∧
    (∃ t, pC = (path ++ [(some rid, some raw)]) ++ t) := by
  rw [trace_route] at htB htC
  have hextB := trace_extend (reg.length + 2) reg tree tgt (some rB) _ _ htB pB
    (List.mem_singleton_self pB)
  have hextC := trace_extend (reg.length + 2) reg tree tgt (some rC) _ _ htC pC
    (List.mem_singleton_self pC)
  refine ⟨?_, hextB, hextC⟩
  have hcond : ¬ (nexthop_is_local nh1 = true) := by
    rw [hnotloc]; exact Bool.false_ne_true
  rw [trace_route, show reg.length + 2 = reg.length + 1 + 1 from rfl, trace_route_fuel_succ]
  simp only [if_neg hne, hreg, hlook, if_neg hcond]
  have hboundB : remRouters reg (path ++ [(some rid, some raw)]) +
      dupPenalty reg (some rB) (path ++ [(some rid, some raw)]) ≤ reg.length := by
    have hpen : dupPenalty reg (some rB) (path ++ [(some rid, some raw)]) = 0 := by
      rw [dupPenalty, if_neg]
      rintro ⟨_, hk⟩
      exact hnm1 hk
    have hr := remRouters_le reg (path ++ [(some rid, some raw)])
    have hd : distinctRouterCount reg ≤ reg.length := by
      rw [distinctRouterCount]
      calc (reg.map (fun e => e.1)).toFinset.card
          ≤ (reg.map (fun e => e.1)).length := (reg.map (fun e => e.1)).toFinset_card_le
        _ = reg.length := List.length_map _ _
    omega
  have hboundC : remRouters reg (path ++ [(some rid, some raw)]) +
      dupPenalty reg (some rC) (path ++ [(some rid, some raw)]) ≤ reg.length := by
    have hpen : dupPenalty reg (some rC) (path ++ [(some rid, some raw)]) = 0 := by
      rw [dupPenalty, if_neg]
      rintro ⟨_, hk⟩
      exact hnm2 hk
    have hr := remRouters_le reg (path ++ [(some rid, some raw)])
    have hd : distinctRouterCount reg ≤ reg.length := by
      rw [distinctRouterCount]
      calc (reg.map (fun e => e.1)).toFinset.card
          ≤ (reg.map (fun e => e.1)).length := (reg.map (fun e => e.1)).toFinset_card_le
        _ = reg.length := List.length_map _ _
    omega
  have hB1 : trace_route_fuel reg tree (reg.length + 1) (some rB) tgt
      (path ++ [(some rid, some raw)]) = .ok [pB] := by
    rw [trace_fuel_stable reg tree tgt (reg.length + 1) (reg.length + 2) (some rB) _
      (by omega) (by omega)]
    exact htB
  have hC1 : trace_route_fuel reg tree (reg.length + 1) (some rC) tgt
      (path ++ [(some rid, some raw)]) = .ok [pC] := by
    rw [trace_fuel_stable reg tree tgt (reg.length + 1) (reg.length + 2) (some rC) _
      (by omega) (by omega)]
    exact htC
  rw [traceGo]
  simp only [hg1, if_neg hnm1, hB1]
  rw [traceGo]
  simp only [hg2, if_neg hnm2, hC1]
  rw [traceGo]
  simp

/-! A three-router ECMP topology for the C5 witness: `S` fans out to the
terminal routers `B` and `C`. -/

def routerS : Router :=
  { routing_table := [(mkCidr 10 99 0 0 16, (["10.0.1.2", "10.0.2.2"], "rawS"))],
    interface_list := [("Eth9", "10.0.9.1/32")] }

def routerC : Router :=
  { routing_table := [(mkCidr 10 99 0 0 16, (["Eth2"], "rawC"))],
    interface_list := [("Eth2", "10.0.2.2/32")] }

def ecmpRegistry : Registry := [("S", routerS), ("B", routerB), ("C", routerC)]

def ecmpTree : IfaceTree :=
  [(mkCidr 10 0 1 2 32, ("B", "Eth0")), (mkCidr 10 0 2 2 32, ("C", "Eth2"))]

/-- Witness for C5 on the ECMP topology. -/
theorem c5_witness :
    trace_route ecmpRegistry ecmpTree (some "S") "10.99.0.1" [] =
        .ok [[(some "S", some "rawS"), (some "B", some "rawB")],
             [(some "S", some "rawS"), (some "C", some "rawC")]] ∧
    (∃ t, [(some "S", some "rawS"), (some "B", some "rawB")] =
        ([] ++ [(some "S", some "rawS")]) ++ t) ∧
    (∃ t, [(some "S", some "rawS"), (some "C", some "rawC")] =
        ([] ++ [(some "S", some "rawS")]) ++ t) :=
  c5_ecmp_two_branches ecmpRegistry ecmpTree "S" routerS "10.99.0.1" "rawS"
    "10.0.1.2" "10.0.2.2" "B" "C" []
    [(some "S", some "rawS"), (some "B", some "rawB")]
    [(some "S", some "rawS"), (some "C", some "rawC")]
    (by decide) (by decide) (by decide) (by decide) (by decide) (by decide)
    (by decide) (by decide) (by decide) (by decide) (by decide)

/-- The LPM example router of the spec: prefixes 10.0.0.0/8 and 10.1.0.0/16
stored via exact-key insertion. -/
def lpmExampleRouter : Router :=
  { routing_table :=
      trieInsert (trieInsert [] (mkCidr 10 0 0 0 8) (["10.1.1.1"], "P1"))
        (mkCidr 10 1 0 0 16) (["10.2.2.2"], "P2"),
    interface_list := [] }

/-- C4: `route_lookup` returns the value stored at the most specific stored
prefix containing the queried address and `(None, None)` when no stored
prefix contains it; concretely, with 10.0.0.0/8 and 10.1.0.0/16 stored,
10.1.2.3 hits the /16 entry, 10.2.0.0 the /8 entry, and 192.0.2.0 is
absent. -/
theorem c4_route_lookup_lpm :
    (∀ (router : Router) (d : String) (q : Cidr), parseCidr d = .ok q →
      (∀ nhs raw, route_lookup d router = .ok (some nhs, some raw) →
        ∃ p, (p, (nhs, raw)) ∈ router.routing_table ∧ cidrContains p q = true ∧
          ∀ e ∈ router.routing_table, cidrContains e.1 q = true → e.1.len ≤ p.len) ∧
      (route_lookup d router = .ok (none, none) →
        ∀ e ∈ router.routing_table, cidrContains e.1 q = false)) ∧
    route_lookup "10.1.2.3" lpmExampleRouter = .ok (some ["10.2.2.2"], some "P2") ∧
    route_lookup "10.2.0.0" lpmExampleRouter = .ok (some ["10.1.1.1"], some "P1") ∧
    route_lookup "192.0.2.0" lpmExampleRouter = .ok (none, none) := by
  refine ⟨?_, by decide, by decide, by decide⟩
  intro router d q hq
  constructor
  · intro nhs raw h
    rw [route_lookup, hq] at h
    dsimp only at h
    cases hTL : trieLookup router.routing_table q with
    | none => rw [hTL] at h; cases h
    | some v =>
        rw [hTL] at h
        cases h
        rw [trieLookup] at hTL
        cases hb : trieBest q router.routing_table with
        | none => rw [hb] at hTL; cases hTL
        | some e =>
            rw [hb] at hTL
            cases hTL
            rcases trieBest_mem hb with ⟨hmem, hcont⟩
            exact ⟨e.1, by simpa using hmem, hcont, trieBest_max hb⟩
  · intro h
    rw [route_lookup, hq] at h
    dsimp only at h
    cases hTL : trieLookup router.routing_table q with
    | none =>
        rw [trieLookup] at hTL
        cases hb : trieBest q router.routing_table with
        | none => exact trieBest_none hb
        | some e => rw [hb] at hTL; cases hTL
    | some v => rw [hTL] at h; cases h

/-- Witness for the general part of C4 at the concrete example. -/
theorem c4_witness :
    ∃ p, (p, (["10.2.2.2"], "P2")) ∈ lpmExampleRouter.routing_table ∧
      cidrContains p (mkCidr 10 1 2 3 32) = true ∧
      ∀ e ∈ lpmExampleRouter.routing_table,
        cidrContains e.1 (mkCidr 10 1 2 3 32) = true → e.1.len ≤ p.len :=
  (c4_route_lookup_lpm.1 lpmExampleRouter "10.1.2.3" (mkCidr 10 1 2 3 32)
    (by decide)).1 ["10.2.2.2"] "P2" (by decide)

/-- C8: `convert_netmask_to_prefix_length` maps a dotted subnet mask to `/`
followed by the total population count of its octets' set bits, returns a
`/N` string unchanged, and returns `""` for empty (or absent) input; the
dotted mask 255.255.255.0 and the suffix /24 produce the identical prefix
length 24. -/
theorem c8_convert_netmask :
    convert_netmask_to_prefix_length none = "" ∧
    convert_netmask_to_prefix_length (some "") = "" ∧
    (∀ s : String, (pyMatch reSlashOnly s.toList).isSome = true →
      convert_netmask_to_prefix_length (some s) = s) ∧
    (∀ s : String, (pyMatch reSlashOnly s.toList).isSome = false →
      (pyMatch reDottedOnly s.toList).isSome = true →
      convert_netmask_to_prefix_length (some s) =
        "/" ++ toString (((pySplit s '.').map
          (fun x => countOnes ((pyInt x).getD 0))).foldl (· + ·) 0)) ∧
    (∀ n < 1024, countOnes n =
      ((List.range 32).filter (fun i => n.testBit i)).length) ∧
    convert_netmask_to_prefix_length (some "255.255.255.0") = "/24" ∧
    convert_netmask_to_prefix_length (some "/24") = "/24" := by
  refine ⟨rfl, rfl, ?_, ?_, by decide, by decide, by decide⟩
  · intro s h
    by_cases hs : s = ""
    · subst hs; exact absurd h (by decide)
    · rw [convert_netmask_to_prefix_length]
      rw [if_neg hs, if_pos h]
  · intro s hslash hdot
    by_cases hs : s = ""
    · subst hs; exact absurd hdot (by decide)
    · rw [convert_netmask_to_prefix_length]
      rw [if_neg hs, if_neg (by rw [hslash]; exact Bool.false_ne_true), if_pos hdot]

/-- Witness for C8 at `/16`, a dotted mask, and the octet 255. -/
theorem c8_witness :
    convert_netmask_to_prefix_length (some "/16") = "/16" ∧
    convert_netmask_to_prefix_length (some "255.0.0.0") =
      "/" ++ toString (((pySplit "255.0.0.0" '.').map
        (fun x => countOnes ((pyInt x).getD 0))).foldl (· + ·) 0) ∧
    countOnes 255 = ((List.range 32).filter (fun i => (255 : Nat).testBit i)).length := by
  obtain ⟨h1, h2, h3, h4, h5, h6, h7⟩ := c8_convert_netmask
  exact ⟨h3 "/16" (by decide), h4 "255.0.0.0" (by decide) (by decide),
    h5 255 (by decide)⟩

/-! ## The loader invariant (claim C9) -/

/-- Every `(rid, iface)` value in the interface tree names a registry key. -/
def treeRegInv (reg : Registry) (tree : IfaceTree) : Prop :=
  ∀ e ∈ tree, (regLookup reg e.2.1).isSome = true

theorem regSet_keys (reg : Registry) (rid : String) (r : Router) :
    (regSet reg rid r).map (fun e => e.1) = reg.map (fun e => e.1) ∨
    (regSet reg rid r).map (fun e => e.1) = reg.map (fun e => e.1) ++ [rid] := by
  rw [regSet]
  split
  · left
    rw [List.map_map]
    apply List.map_congr_left
    intro e _
    by_cases he : e.1 = rid
    · simp [he]
    · simp [he]
  · right
    simp

theorem regSet_mono (reg : Registry) (rid k : String) (r : Router)
    (h : (regLookup reg k).isSome = true) :
    (regLookup (regSet reg rid r) k).isSome = true := by
  rw [regLookup_isSome_iff] at h ⊢
  rcases regSet_keys reg rid r with hk | hk
  · rw [hk]; exact h
  · rw [hk]; exact List.mem_append.mpr (Or.inl h)

theorem regSet_self (reg : Registry) (rid : String) (r : Router) :
    (regLookup (regSet reg rid r) rid).isSome = true := by
  rw [regLookup_isSome_iff]
  rcases regSet_keys reg rid r with hk | hk
  · rw [hk]
    rw [regSet] at hk
    split at hk
    · next hany =>
        rcases List.any_eq_true.mp hany with ⟨e, he, heq⟩
        exact List.mem_map.mpr ⟨e, he, of_decide_eq_true heq⟩
    · next hany =>
        exfalso
        have := congrArg List.length hk
        simp at this
  · rw [hk]; exact List.mem_append.mpr (Or.inr (List.mem_singleton_self rid))

theorem trieInsert_values {α : Type} {t : Trie α} {k : Cidr} {v : α} {e : Cidr × α}
    (h : e ∈ trieInsert t k v) : e ∈ t ∨ e.2 = v := by
  rw [trieInsert] at h
  split at h
  · rcases List.mem_map.mp h with ⟨e₀, he₀, heq⟩
    by_cases hk : e₀.1 = k
    · rw [if_pos hk] at heq; right; rw [← heq]
    · rw [if_neg hk] at heq; left; rw [← heq]; exact he₀
  · rcases List.mem_append.mp h with h₁ | h₁
    · exact Or.inl h₁
    · right; rw [List.mem_singleton.mp h₁]

theorem trieInsertS_values {α : Type} {t t' : Trie α} {s : String} {v : α}
    (h : trieInsertS t s v = .ok t') : ∀ e ∈ t', e ∈ t ∨ e.2 = v := by
  rw [trieInsertS] at h
  split at h
  · cases h
  · cases h
    intro e he
    exact trieInsert_values he

theorem ifaceFold_values (rid₀ : String) :
    ∀ (il : List (String × String)) (t₀ t' : IfaceTree),
      il.foldlM (fun t e => trieInsertS t e.2 (rid₀, e.1)) t₀ = .ok t' →
      ∀ e ∈ t', e ∈ t₀ ∨ e.2.1 = rid₀ := by
  intro il
  induction il with
  | nil =>
      intro t₀ t' h e he
      rw [List.foldlM_nil] at h
      cases h
      exact Or.inl he
  | cons x xs ih =>
      intro t₀ t' h e he
      rw [List.foldlM_cons] at h
      cases hstep : trieInsertS t₀ x.2 (rid₀, x.1) with
      | error er => rw [hstep] at h; cases h
      | ok t₁ =>
          rw [hstep] at h
          have hbind : (Except.ok t₁ >>= fun b =>
              xs.foldlM (fun t e => trieInsertS t e.2 (rid₀, e.1)) b) =
              xs.foldlM (fun t e => trieInsertS t e.2 (rid₀, e.1)) t₁ := rfl
          rw [hbind] at h
          rcases ih t₁ t' h e he with h₁ | h₁
          · rcases trieInsertS_values hstep e h₁ with h₂ | h₂
            · exact Or.inl h₂
            · right; rw [h₂]
          · exact Or.inr h₁

theorem loadFileStep_cases {acc res : Registry × IfaceTree} {file : String × String}
    (h : loadFileStep acc file = .ok res) :
    res = acc ∨
    ∃ router tr, parse_text_routing_table file.2 = .ok (some router) ∧
      res = (regSet acc.1 (pyReplaceDrop file.1 ".txt") router, tr) ∧
      (router.interface_list.foldlM
          (fun t e => trieInsertS t e.2 (pyReplaceDrop file.1 ".txt", e.1)) acc.2 =
            .ok tr ∨ tr = acc.2) := by
  rw [loadFileStep] at h
  by_cases hend : pyEndswith file.1 ".txt" = true
  · rw [if_pos hend] at h
    cases hp : parse_text_routing_table file.2 with
    | error e => rw [hp] at h; cases h
    | ok newr =>
        rw [hp] at h
        dsimp only at h
        cases newr with
        | none => cases h; exact Or.inl rfl
        | some router =>
            dsimp only at h
            by_cases hil : router.interface_list ≠ []
            · rw [if_pos hil] at h
              cases hf : router.interface_list.foldlM
                  (fun t e => trieInsertS t e.2 (pyReplaceDrop file.1 ".txt", e.1)) acc.2 with
              | error e => rw [hf] at h; cases h
              | ok tr =>
                  rw [hf] at h
                  dsimp only at h
                  cases h
                  exact Or.inr ⟨router, tr, rfl, rfl, Or.inl hf⟩
            · rw [if_neg hil] at h
              dsimp only at h
              cases h
              exact Or.inr ⟨router, acc.2, rfl, rfl, Or.inr rfl⟩
  · rw [if_neg hend] at h
    cases h
    exact Or.inl rfl

theorem loadFileStep_regMono {acc res : Registry × IfaceTree} {file : String × String}
    (h : loadFileStep acc file = .ok res) :
    ∀ k, (regLookup acc.1 k).isSome = true → (regLookup res.1 k).isSome = true := by
  intro k hk
  rcases loadFileStep_cases h with rfl | ⟨router, tr, _, rfl, _⟩
  · exact hk
  · exact regSet_mono _ _ _ _ hk

theorem loadFileStep_inv {acc res : Registry × IfaceTree} {file : String × String}
    (h : loadFileStep acc file = .ok res)
    (hinv : treeRegInv acc.1 acc.2) : treeRegInv res.1 res.2 := by
  rcases loadFileStep_cases h with rfl | ⟨router, tr, _, rfl, hfold⟩
  · exact hinv
  · intro e he
    have hvals : e ∈ acc.2 ∨ e.2.1 = pyReplaceDrop file.1 ".txt" := by
      rcases hfold with hf | rfl
      · exact ifaceFold_values _ _ _ _ hf e he
      · exact Or.inl he
    rcases hvals with h₁ | h₁
    · exact regSet_mono _ _ _ _ (hinv e h₁)
    · rw [h₁]; exact regSet_self _ _ _

theorem load_fold_inv :
    ∀ (files : List (String × String)) (acc res : Registry × IfaceTree),
      files.foldlM loadFileStep acc = .ok res →
      treeRegInv acc.1 acc.2 → treeRegInv res.1 res.2 := by
  intro files
  induction files with
  | nil =>
      intro acc res h hinv
      rw [List.foldlM_nil] at h
      cases h
      exact hinv
  | cons f fs ih =>
      intro acc res h hinv
      rw [List.foldlM_cons] at h
      cases hstep : loadFileStep acc f with
      | error er => rw [hstep] at h; cases h
      | ok acc₁ =>
          rw [hstep] at h
          have hbind : (Except.ok acc₁ >>= fun b => fs.foldlM loadFileStep b) =
              fs.foldlM loadFileStep acc₁ := rfl
          rw [hbind] at h
          exact ih acc₁ res h (loadFileStep_inv hstep hinv)

theorem get_rid_ok_mem {tree : IfaceTree} {ip : String} {k : String}
    (h : get_rid_by_interface_ip tree ip = .ok (some k)) :
    ∃ e ∈ tree, e.2.1 = k := by
  rw [get_rid_by_interface_ip] at h
  split at h
  · cases h
  · next q hq =>
      split at h
      · next v hv =>
          cases h
          rw [trieLookup] at hv
          cases hb : trieBest q tree with
          | none => rw [hb] at hv; cases hv
          | some e =>
              rw [hb] at hv
              cases hv
              exact ⟨e, (trieBest_mem hb).1, rfl⟩
      · cases h

/-- The next-hop loop cannot raise `KeyError` when the interface tree only
resolves to registry keys and the recursion cannot either. -/
theorem traceGo_no_key (reg : Registry)
    (recurse : Option String → List Hop → Except PyErr (List TrPath))
    (tree : IfaceTree) (path : List Hop)
    (hinv : treeRegInv reg tree)
    (hrec : ∀ r', (r' = none ∨ ∃ k, r' = some k ∧
        (k = "" ∨ (regLookup reg k).isSome = true)) →
      recurse r' path ≠ .error .keyError) :
    ∀ nhs acc, traceGo recurse tree path nhs acc ≠ .error .keyError := by
  intro nhs
  induction nhs with
  | nil => intro acc h; rw [traceGo] at h; cases h
  | cons nh rest ih =>
      intro acc h
      rw [traceGo] at h
      split at h
      · next heq => rw [get_rid_error heq] at h; cases h
      · next nhr heq =>
          split at h
          · split at h
            · cases h
            · cases h
          · split at h
            · next heq2 =>
                have hok : nhr = none ∨ ∃ k, nhr = some k ∧
                    (k = "" ∨ (regLookup reg k).isSome = true) := by
                  cases nhr with
                  | none => exact Or.inl rfl
                  | some k =>
                      rcases get_rid_ok_mem heq with ⟨e, he, hek⟩
                      exact Or.inr ⟨k, rfl, Or.inr (hek ▸ hinv e he)⟩
                exact hrec nhr hok (heq2 ▸ h ▸ (h ▸ rfl))
            · exact ih _ h

/-- Above a valid load, the engine never raises `KeyError`: registry access
succeeds for every router id the loop resolves. -/
theorem trace_no_key (reg : Registry) (tree : IfaceTree) (tgt : String)
    (hinv : treeRegInv reg tree) :
    ∀ (fuel : Nat) (rid : Option String) (path : List Hop),
      (rid = none ∨ ∃ k, rid = some k ∧ (k = "" ∨ (regLookup reg k).isSome = true)) →
      trace_route_fuel reg tree fuel rid tgt path ≠ .error .keyError := by
  intro fuel
  induction fuel with
  | zero => intro rid path hok h; rw [trace_route_fuel] at h; cases h
  | succ fuel ih =>
      intro rid path hok h
      cases rid with
      | none => rw [trace_route_fuel] at h; cases h
      | some rid =>
          rw [trace_route_fuel_succ] at h
          by_cases hrid : rid = ""
          · rw [if_pos hrid] at h; cases h
          · rw [if_neg hrid] at h
            have hsome : (regLookup reg rid).isSome = true := by
              rcases hok with hn | ⟨k, hk, hkk⟩
              · cases hn
              · cases hk
                rcases hkk with h1 | h1
                · exact absurd h1 hrid
                · exact h1
            split at h
            · next hreg => rw [hreg] at hsome; cases hsome
            · split at h
              · next e hlk => rw [route_lookup_error hlk] at h; cases h
              · split at h
                · cases h
                · cases h
                · split at h
                  · cases h
                  · exact traceGo_no_key reg _ tree _ hinv
                      (fun r' hok' => ih r' _ hok') _ _ h

/-- C9: after any successful directory load (which registers interface
prefixes only for routers it has just inserted into the registry), every
router id the interface tree can resolve is a key of the returned registry,
and consequently the `ROUTERS[source_router_id]` access inside `trace_route`
cannot raise `KeyError` for any source id that is absent, empty, or a
registry key — in particular for every id obtained by resolving a next
hop. -/
theorem c9_resolved_rids_in_registry
    (files : List (String × String)) (reg : Registry) (tree : IfaceTree)
    (hload : do_parse_directory files [] = .ok (some reg, tree)) :
    (∀ ip rid, get_rid_by_interface_ip tree ip = .ok (some rid) →
      (regLookup reg rid).isSome = true) ∧
    (∀ (fuel : Nat) (tgt : String) (rid : Option String) (path : List Hop),
      (rid = none ∨ ∃ k, rid = some k ∧ (k = "" ∨ (regLookup reg k).isSome = true)) →
      trace_route_fuel reg tree fuel rid tgt path ≠ .error .keyError) := by
  have hinv : treeRegInv reg tree := by
    rw [do_parse_directory] at hload
    cases hf : files.foldlM loadFileStep ([], []) with
    | error e => rw [hf] at hload; cases hload
    | ok pr =>
        rw [hf] at hload
        dsimp only at hload
        rcases pr with ⟨nr, tr⟩
        by_cases hnr : nr = []
        · rw [if_pos hnr] at hload; cases hload
        · rw [if_neg hnr] at hload
          cases hload
          exact load_fold_inv files ([], []) (nr, tr) hf (fun e he => by cases he)
  refine ⟨?_, fun fuel tgt rid path hok => trace_no_key reg tree tgt hinv fuel rid path hok⟩
  intro ip rid hg
  rcases get_rid_ok_mem hg with ⟨e, he, hek⟩
  exact hek ▸ hinv e he
/-- The registry produced by loading one small routing-table file. -/
def loadedRegistry : Registry :=
  [("r1", { routing_table :=
              [(mkCidr 10 0 0 1 32, (["Eth0"], "L 10.0.0.1/32 is directly connected, Eth0"))],
            interface_list := [("Eth0", "10.0.0.1/32")] })]

/-- The interface tree produced by the same load. -/
def loadedTree : IfaceTree := [(mkCidr 10 0 0 1 32, ("r1", "Eth0"))]

/-- Witness for C9: a one-file load, its resolver answer, and a keyError-free
trace from the loaded router. -/
theorem c9_witness :
    (regLookup loadedRegistry "r1").isSome = true ∧
    trace_route_fuel loadedRegistry loadedTree 5 (some "r1") "10.0.0.1" [] ≠
      .error .keyError := by
  have hc := c9_resolved_rids_in_registry
    [("r1.txt", "L 10.0.0.1/32 is directly connected, Eth0\n")]
    loadedRegistry loadedTree (by decide)
  exact ⟨hc.1 "10.0.0.1" "r1" (by decide),
    hc.2 5 "10.0.0.1" (some "r1") [] (Or.inr ⟨"r1", rfl, Or.inr (by decide)⟩)⟩

/-! ## Parser structure lemmas (claim C3) -/

/-- The input text contains a type-`L` local record (as the parser's own
scan finds it). -/
def hasLRecord (raw : String) : Prop :=
  ∃ m ∈ pyFinditer reRouteLC raw.toList, m.group raw.toList 1 = some "L"

theorem trieInsert_ne_nil {α : Type} (t : Trie α) (k : Cidr) (v : α) :
    trieInsert t k v ≠ [] := by
  rw [trieInsert]
  split
  · next hany =>
      rcases List.any_eq_true.mp hany with ⟨e, he, _⟩
      intro hc
      rw [List.map_eq_nil_iff] at hc
      rw [hc] at he
      cases he
  · intro hc
    rcases List.append_eq_nil.mp hc with ⟨_, h2⟩
    cases h2

theorem trieInsertS_ne_nil {α : Type} {t t' : Trie α} {s : String} {v : α}
    (h : trieInsertS t s v = .ok t') : t' ≠ [] := by
  rw [trieInsertS] at h
  split at h
  · cases h
  · cases h
    exact trieInsert_ne_nil _ _ _

theorem parseLCStep_shape {text : List Char}
    {acc acc' : Trie (List String × String) × List (String × String)} {m : RMatch}
    (h : parseLCStep text acc m = .ok acc') :
    acc'.1 ≠ [] ∧
    (m.group text 1 = some "L" → ∃ i s, acc'.2 = acc.2 ++ [(i, s)]) ∧
    (m.group text 1 ≠ some "L" → acc'.2 = acc.2) := by
  rw [parseLCStep] at h
  split at h
  · cases h
  · next ip hip =>
      split at h
      · cases h
      · next iface hiface =>
          split at h
          · cases h
          · next raw hraw =>
              dsimp only at h
              by_cases hL : m.group text 1 = some "L"
              · rw [if_pos hL] at h
                split at h
                · cases h
                · next rt hrt =>
                    cases h
                    exact ⟨trieInsertS_ne_nil hrt,
                      fun _ => ⟨iface, _, rfl⟩, fun hn => absurd hL hn⟩
              · rw [if_neg hL] at h
                split at h
                · cases h
                · next rt hrt =>
                    cases h
                    exact ⟨trieInsertS_ne_nil hrt,
                      fun hx => absurd hx hL, fun _ => rfl⟩

theorem foldLC_il {text : List Char} :
    ∀ (ms : List RMatch) (acc res : Trie (List String × String) × List (String × String)),
      ms.foldlM (parseLCStep text) acc = .ok res →
      ∃ t, res.2 = acc.2 ++ t ∧ (t = [] ↔ ∀ m ∈ ms, m.group text 1 ≠ some "L") := by
  intro ms
  induction ms with
  | nil =>
      intro acc res h
      rw [List.foldlM_nil] at h
      cases h
      exact ⟨[], by simp, by simp⟩
  | cons m ms ih =>
      intro acc res h
      rw [List.foldlM_cons] at h
      cases hstep : parseLCStep text acc m with
      | error e => rw [hstep] at h; cases h
      | ok acc₁ =>
          rw [hstep] at h
          have hbind : (Except.ok acc₁ >>= fun b => ms.foldlM (parseLCStep text) b) =
              ms.foldlM (parseLCStep text) acc₁ := rfl
          rw [hbind] at h
          rcases ih acc₁ res h with ⟨t, hres, hiff⟩
          rcases parseLCStep_shape hstep with ⟨_, hL, hnotL⟩
          by_cases hm : m.group text 1 = some "L"
          · rcases hL hm with ⟨i, s, hil⟩
            refine ⟨(i, s) :: t, by rw [hres, hil]; simp, ?_⟩
            constructor
            · intro hc; cases hc
            · intro hall
              exact absurd hm (hall m (List.mem_cons_self _ _))
          · refine ⟨t, by rw [hres, hnotL hm], ?_⟩
            rw [hiff]
            constructor
            · intro hall m' hm'
              rcases List.mem_cons.mp hm' with rfl | hmem
              · exact hm
              · exact hall m' hmem
            · intro hall m' hm'
              exact hall m' (List.mem_cons_of_mem _ hm')

theorem foldLC_rt_ne {text : List Char} :
    ∀ (ms : List RMatch) (acc res : Trie (List String × String) × List (String × String)),
      ms.foldlM (parseLCStep text) acc = .ok res →
      (acc.1 ≠ [] ∨ ms ≠ []) → res.1 ≠ [] := by
  intro ms
  induction ms with
  | nil =>
      intro acc res h hne
      rw [List.foldlM_nil] at h
      cases h
      rcases hne with h1 | h1
      · exact h1
      · exact absurd rfl h1
  | cons m ms ih =>
      intro acc res h _
      rw [List.foldlM_cons] at h
      cases hstep : parseLCStep text acc m with
      | error e => rw [hstep] at h; cases h
      | ok acc₁ =>
          rw [hstep] at h
          have hbind : (Except.ok acc₁ >>= fun b => ms.foldlM (parseLCStep text) b) =
              ms.foldlM (parseLCStep text) acc₁ := rfl
          rw [hbind] at h
          exact ih acc₁ res h (Or.inl (parseLCStep_shape hstep).1)

theorem parseRouteStep_ne {text : List Char} {rt rt' : Trie (List String × String)}
    {m : RMatch} (h : parseRouteStep text rt m = .ok rt') : rt' ≠ [] := by
  rw [parseRouteStep] at h
  split at h
  · cases h
  · split at h
    · cases h
    · split at h
      · cases h
      · split at h
        · cases h
        · exact trieInsertS_ne_nil h

theorem foldRoute_ne {text : List Char} :
    ∀ (ms : List RMatch) (rt res : Trie (List String × String)),
      ms.foldlM (parseRouteStep text) rt = .ok res → rt ≠ [] → res ≠ [] := by
  intro ms
  induction ms with
  | nil =>
      intro rt res h hne
      rw [List.foldlM_nil] at h
      cases h
      exact hne
  | cons m ms ih =>
      intro rt res h _
      rw [List.foldlM_cons] at h
      cases hstep : parseRouteStep text rt m with
      | error e => rw [hstep] at h; cases h
      | ok rt₁ =>
          rw [hstep] at h
          have hbind : (Except.ok rt₁ >>= fun b => ms.foldlM (parseRouteStep text) b) =
              ms.foldlM (parseRouteStep text) rt₁ := rfl
          rw [hbind] at h
          exact ih rt₁ res h (parseRouteStep_ne hstep)

/-- C3 (amended): the parser returns the explicit no-entries failure signal
(`None`, no structures populated) exactly when zero type-`L` local records
are found by its local/connected scan — type-`C` connected records alone do
not count; whenever the parser does return a router, that router has a
nonempty `interface_list` and a populated routing table. -/
theorem c3_amended_failure_iff_no_L_record (raw : String) :
    (parse_show_ip_route_ios_like raw = .ok none → ¬ hasLRecord raw) ∧
    (¬ hasLRecord raw → ∀ x, parse_show_ip_route_ios_like raw = .ok x → x = none) ∧
    (∀ router, parse_show_ip_route_ios_like raw = .ok (some router) →
      router.interface_list ≠ [] ∧ router.routing_table ≠ []) := by
  have hmain : ∀ x, parse_show_ip_route_ios_like raw = .ok x →
      (x = none → ¬ hasLRecord raw) ∧
      (¬ hasLRecord raw → x = none) ∧
      (∀ router, x = some router →
        router.interface_list ≠ [] ∧ router.routing_table ≠ []) := by
    intro x h
    rw [parse_show_ip_route_ios_like] at h
    cases hf : (pyFinditer reRouteLC raw.toList).foldlM (parseLCStep raw.toList) ([], []) with
    | error e => rw [hf] at h; cases h
    | ok pr =>
        rw [hf] at h
        dsimp only at h
        rcases pr with ⟨rt₁, il⟩
        rcases foldLC_il _ _ _ hf with ⟨t, hil, hiff⟩
        rw [List.nil_append] at hil
        replace hil : il = t := hil
        subst hil
        by_cases hil0 : il = []
        · rw [if_pos hil0] at h
          cases h
          refine ⟨?_, fun _ => rfl, ?_⟩
          · intro _
            rintro ⟨m, hm, hL⟩
            exact absurd hL (hiff.mp hil0 m hm)
          · intro router hr; cases hr
        · rw [if_neg hil0] at h
          cases hf₂ : (pyFinditer reRoute raw.toList).foldlM (parseRouteStep raw.toList) rt₁ with
          | error e => rw [hf₂] at h; cases h
          | ok rt₂ =>
              rw [hf₂] at h
              dsimp only at h
              cases h
              refine ⟨?_, ?_, ?_⟩
              · intro hc; cases hc
              · intro hnoL
                exfalso
                apply hil0
                apply hiff.mpr
                intro m hm
                by_contra hL
                exact hnoL ⟨m, hm, hL⟩
              · intro router hr
                cases hr
                refine ⟨hil0, ?_⟩
                apply foldRoute_ne _ _ _ hf₂
                apply foldLC_rt_ne _ _ _ hf
                right
                intro hms
                rw [hms, List.foldlM_nil] at hf
                cases hf
                exact hil0 rfl
  refine ⟨?_, ?_, ?_⟩
  · intro h
    exact ((hmain none h).1) rfl
  · intro hno x h
    exact (hmain x h).2.1 hno
  · intro router h
    exact (hmain (some router) h).2.2 router rfl

/-- C3 counterexample: an input with exactly one local/connected record of
type `C` (so at least one `L`/`C` record is present) on which the parser
nevertheless returns the no-entries failure signal. -/
theorem c3_counterexample :
    parse_show_ip_route_ios_like "C 10.0.0.0/24 is directly connected, Eth0\n" = .ok none ∧
    ((pyFinditer reRouteLC "C 10.0.0.0/24 is directly connected, Eth0\n".toList).map
      (fun m => m.group "C 10.0.0.0/24 is directly connected, Eth0\n".toList 1)) =
        [some "C"] := by
  refine ⟨by decide, by decide⟩

/-- Witness for the amended C3: an `L`-record input parses to a populated
router. -/
theorem c3_witness :
    ({ routing_table :=
         [(mkCidr 10 0 0 1 32, (["Eth0"], "L 10.0.0.1/32 is directly connected, Eth0"))],
       interface_list := [("Eth0", "10.0.0.1/32")] } : Router).interface_list ≠ [] ∧
    ({ routing_table :=
         [(mkCidr 10 0 0 1 32, (["Eth0"], "L 10.0.0.1/32 is directly connected, Eth0"))],
       interface_list := [("Eth0", "10.0.0.1/32")] } : Router).routing_table ≠ [] :=
  (c3_amended_failure_iff_no_L_record
      "L 10.0.0.1/32 is directly connected, Eth0\n").2.2 _ (by decide)

/-! ## Heap model of Python list objects (claim C10)

`trace_route` receives its `path` argument by reference, and Python's
mutable default argument `path=[]` is one shared list object.  To settle
the mutation claim, the engine is embedded a second time in store-passing
style: a heap of list objects, references as allocation indices, and
`path + [x]` as fresh allocation — exactly the operations the source
performs.  The claim theorem then shows the heap is only ever extended
(no pre-existing object changes) and that the result agrees with the pure
embedding. -/

abbrev PHeap := List TrPath

def hGet (h : PHeap) (r : Nat) : TrPath := h.getD r []

/-- Allocate a fresh list object: `path + [x]` always builds a new list. -/
def hAlloc (h : PHeap) (v : TrPath) : PHeap × Nat := (h ++ [v], h.length)

/-- The `for nh in next_hop:` loop with the path held in the heap. -/
def traceGoH (recurse : Option String → Nat → PHeap → Except PyErr (List Nat) × PHeap)
    (tree : IfaceTree) (pathRef : Nat) :
    List String → List Nat → PHeap → Except PyErr (List Nat) × PHeap
  | [], paths, h => (.ok paths, h)
  | nh :: rest, paths, h =>
      match get_rid_by_interface_ip tree nh with
      | .error e => (.error e, h)
      | .ok next_hop_rid =>
          if next_hop_rid ∈ (hGet h pathRef).map (fun r => r.1) then
            match next_hop_rid with
            | some r =>
                let al := hAlloc h (hGet h pathRef ++ [(some (r ++ "<<LOOP DETECTED"), none)])
                (.ok [al.2], al.1)
            | none => (.error .typeError, h)
          else
            match recurse next_hop_rid pathRef h with
            | (.error e, h') => (.error e, h')
            | (.ok inner_path, h') =>
                traceGoH recurse tree pathRef rest (paths ++ inner_path) h'

/-- `trace_route` in store-passing style: same structure as
`trace_route_fuel`, with every `path + [...]` an allocation. -/
def trace_route_fuelH (reg : Registry) (tree : IfaceTree) :
    Nat → Option String → String → Nat → PHeap → Except PyErr (List Nat) × PHeap
  | 0, _, _, _, h => (.error .outOfFuel, h)
  | fuel + 1, source_router_id, target_ip, pathRef, h =>
      match source_router_id with
      | none =>
          let al := hAlloc h (hGet h pathRef ++ [(none, none)])
          (.ok [al.2], al.1)
      | some rid =>
          if rid = "" then
            let al := hAlloc h (hGet h pathRef ++ [(none, none)])
            (.ok [al.2], al.1)
          else
            match regLookup reg rid with
            | none => (.error .keyError, h)
            | some current_router =>
                match route_lookup target_ip current_router with
                | .error e => (.error e, h)
                | .ok (next_hop, raw_route_string) =>
                    let al := hAlloc h (hGet h pathRef ++ [(some rid, raw_route_string)])
                    match next_hop with
                    | none => (.ok [al.2], al.1)
                    | some [] => (.ok [al.2], al.1)
                    | some (nh0 :: nhrest) =>
                        if nexthop_is_local nh0 then (.ok [al.2], al.1)
                        else
                          traceGoH
                            (fun r p hh => trace_route_fuelH reg tree fuel r target_ip p hh)
                            tree al.2 (nh0 :: nhrest) [] al.1

theorem hGet_append {h : PHeap} {t : List TrPath} {r : Nat} (hr : r < h.length) :
    hGet (h ++ t) r = hGet h r := by
  rw [hGet, hGet]
  exact List.getD_append _ _ _ _ hr

theorem hAlloc_get (h : PHeap) (v : TrPath) : hGet (h ++ [v]) h.length = v := by
  rw [hGet, List.getD_eq_getElem?_getD, List.getElem?_append_right (le_refl _)]
  simp

/-- The heap-based loop only extends the heap, returns valid references, and
agrees with the pure loop on list contents — given a recursion with the same
three properties. -/
theorem traceGoH_agree
    (tree : IfaceTree)
    (recurseH : Option String → Nat → PHeap → Except PyErr (List Nat) × PHeap)
    (recurse : Option String → List Hop → Except PyErr (List TrPath))
    (hrec : ∀ r ref h, ref < h.length →
      (∃ tail, (recurseH r ref h).2 = h ++ tail) ∧
      (∀ refs, (recurseH r ref h).1 = .ok refs →
        ∀ x ∈ refs, x < (recurseH r ref h).2.length) ∧
      Except.map (fun refs => refs.map (hGet (recurseH r ref h).2)) (recurseH r ref h).1 =
        recurse r (hGet h ref)) :
    ∀ (nhs : List String) (ref : Nat) (h : PHeap) (accR : List Nat),
      ref < h.length → (∀ x ∈ accR, x < h.length) →
      (∃ tail, (traceGoH recurseH tree ref nhs accR h).2 = h ++ tail) ∧
      (∀ refs, (traceGoH recurseH tree ref nhs accR h).1 = .ok refs →
        ∀ x ∈ refs, x < (traceGoH recurseH tree ref nhs accR h).2.length) ∧
      Except.map (fun refs => refs.map (hGet (traceGoH recurseH tree ref nhs accR h).2))
          (traceGoH recurseH tree ref nhs accR h).1 =
        traceGo recurse tree (hGet h ref) nhs (accR.map (hGet h)) := by
  intro nhs
  induction nhs with
  | nil =>
      intro ref h accR href hacc
      have hstep : traceGoH recurseH tree ref [] accR h = (.ok accR, h) := by
        rw [traceGoH]
      rw [hstep, traceGo]
      refine ⟨⟨[], by simp⟩, ?_, by simp [Except.map]⟩
      intro refs hr x hx
      cases hr
      exact hacc x hx
  | cons nh rest ih =>
      intro ref h accR href hacc
      cases hg : get_rid_by_interface_ip tree nh with
      | error e =>
          have hstep : traceGoH recurseH tree ref (nh :: rest) accR h = (.error e, h) := by
            rw [traceGoH, hg]
          rw [hstep]
          refine ⟨⟨[], by simp⟩, ?_, ?_⟩
          · intro refs hr; cases hr
          · rw [traceGo, hg]
            simp [Except.map]
      | ok nhr =>
          by_cases hm : nhr ∈ (hGet h ref).map (fun r => r.1)
          · cases nhr with
            | none =>
                have hstep : traceGoH recurseH tree ref (nh :: rest) accR h =
                    (.error .typeError, h) := by
                  rw [traceGoH, hg]
                  dsimp only
                  rw [if_pos hm]
                rw [hstep]
                refine ⟨⟨[], by simp⟩, ?_, ?_⟩
                · intro refs hr; cases hr
                · rw [traceGo, hg]
                  dsimp only
                  rw [if_pos hm]
                  simp [Except.map]
            | some r =>
                have hstep : traceGoH recurseH tree ref (nh :: rest) accR h =
                    (.ok [h.length],
                      h ++ [hGet h ref ++ [(some (r ++ "<<LOOP DETECTED"), none)]]) := by
                  rw [traceGoH, hg]
                  dsimp only
                  rw [if_pos hm]
                  rfl
                rw [hstep]
                refine ⟨⟨_, rfl⟩, ?_, ?_⟩
                · intro refs hr x hx
                  cases hr
                  rcases List.mem_singleton.mp hx with rfl
                  simp
                · rw [traceGo, hg]
                  dsimp only
                  rw [if_pos hm]
                  simp [Except.map, hAlloc_get]
          · obtain ⟨⟨tail, htail⟩, hvalid, hagree⟩ := hrec nhr ref h href
            cases hres : recurseH nhr ref h with
            | mk res₁ h₁ =>
                rw [hres] at htail hvalid hagree
                dsimp only at htail hvalid hagree
                subst htail
                cases res₁ with
                | error e =>
                    have hstep : traceGoH recurseH tree ref (nh :: rest) accR h =
                        (.error e, h ++ tail) := by
                      rw [traceGoH, hg]
                      dsimp only
                      rw [if_neg hm, hres]
                    rw [hstep]
                    refine ⟨⟨tail, rfl⟩, ?_, ?_⟩
                    · intro refs hr; cases hr
                    · rw [traceGo, hg]
                      dsimp only
                      rw [if_neg hm]
                      have hpure : recurse nhr (hGet h ref) = .error e := by
                        rw [← hagree]; rfl
                      rw [hpure]
                      simp [Except.map]
                | ok inner =>
                    have href₁ : ref < (h ++ tail).length := by
                      rw [List.length_append]; omega
                    have hacc₁ : ∀ x ∈ accR ++ inner, x < (h ++ tail).length := by
                      intro x hx
                      rcases List.mem_append.mp hx with h1 | h1
                      · rw [List.length_append]
                        have := hacc x h1
                        omega
                      · exact hvalid inner rfl x h1
                    obtain ⟨⟨tail₂, htail₂⟩, hvalid₂, hagree₂⟩ :=
                      ih ref (h ++ tail) (accR ++ inner) href₁ hacc₁
                    have hstep : traceGoH recurseH tree ref (nh :: rest) accR h =
                        traceGoH recurseH tree ref rest (accR ++ inner) (h ++ tail) := by
                      rw [traceGoH, hg]
                      dsimp only
                      rw [if_neg hm, hres]
                    rw [hstep]
                    refine ⟨⟨tail ++ tail₂, by rw [htail₂, List.append_assoc]⟩, hvalid₂, ?_⟩
                    rw [traceGo, hg]
                    dsimp only
                    rw [if_neg hm]
                    have hpure : recurse nhr (hGet h ref) = .ok (inner.map (hGet (h ++ tail))) := by
                      rw [← hagree]; rfl
                    rw [hpure]
                    dsimp only
                    have e1 : hGet (h ++ tail) ref = hGet h ref := hGet_append href
                    have e2 : (accR ++ inner).map (hGet (h ++ tail)) =
                        accR.map (hGet h) ++ inner.map (hGet (h ++ tail)) := by
                      rw [List.map_append]
                      congr 1
                      apply List.map_congr_left
                      intro x hx
                      exact hGet_append (hacc x hx)
                    rw [← e1, ← e2]
                    exact hagree₂

/-- The heap-based engine only extends the heap, returns valid references,
and its referenced contents are exactly the pure engine's paths. -/
theorem traceH_agree (reg : Registry) (tree : IfaceTree) (tgt : String) :
    ∀ (fuel : Nat) (rid : Option String) (ref : Nat) (h : PHeap),
      ref < h.length →
      (∃ tail, (trace_route_fuelH reg tree fuel rid tgt ref h).2 = h ++ tail) ∧
      (∀ refs, (trace_route_fuelH reg tree fuel rid tgt ref h).1 = .ok refs →
        ∀ x ∈ refs, x < (trace_route_fuelH reg tree fuel rid tgt ref h).2.length) ∧
      Except.map (fun refs => refs.map (hGet (trace_route_fuelH reg tree fuel rid tgt ref h).2))
          (trace_route_fuelH reg tree fuel rid tgt ref h).1 =
        trace_route_fuel reg tree fuel rid tgt (hGet h ref) := by
  intro fuel
  induction fuel with
  | zero =>
      intro rid ref h href
      have hstep : trace_route_fuelH reg tree 0 rid tgt ref h = (.error .outOfFuel, h) := by
        rw [trace_route_fuelH]
      rw [hstep, trace_route_fuel]
      refine ⟨⟨[], by simp⟩, ?_, by simp [Except.map]⟩
      intro refs hr; cases hr
  | succ fuel ih =>
      intro rid ref h href
      cases rid with
      | none =>
          have hstep : trace_route_fuelH reg tree (fuel + 1) none tgt ref h =
              (.ok [h.length], h ++ [hGet h ref ++ [(none, none)]]) := by
            rw [trace_route_fuelH]
            rfl
          rw [hstep, trace_route_fuel]
          refine ⟨⟨_, rfl⟩, ?_, ?_⟩
          · intro refs hr x hx
            cases hr
            rcases List.mem_singleton.mp hx with rfl
            simp
          · simp [Except.map, hAlloc_get]
      | some rid =>
          by_cases hrid : rid = ""
          · have hstep : trace_route_fuelH reg tree (fuel + 1) (some rid) tgt ref h =
                (.ok [h.length], h ++ [hGet h ref ++ [(none, none)]]) := by
              rw [trace_route_fuelH]
              dsimp only
              rw [if_pos hrid]
              rfl
            rw [hstep, trace_route_fuel_succ, if_pos hrid]
            refine ⟨⟨_, rfl⟩, ?_, ?_⟩
            · intro refs hr x hx
              cases hr
              rcases List.mem_singleton.mp hx with rfl
              simp
            · simp [Except.map, hAlloc_get]
          · cases hreg : regLookup reg rid with
            | none =>
                have hstep : trace_route_fuelH reg tree (fuel + 1) (some rid) tgt ref h =
                    (.error .keyError, h) := by
                  rw [trace_route_fuelH]
                  dsimp only
                  rw [if_neg hrid, hreg]
                rw [hstep, trace_route_fuel_succ, if_neg hrid, hreg]
                refine ⟨⟨[], by simp⟩, ?_, by simp [Except.map]⟩
                intro refs hr; cases hr
            | some cr =>
                cases hlk : route_lookup tgt cr with
                | error e =>
                    have hstep : trace_route_fuelH reg tree (fuel + 1) (some rid) tgt ref h =
                        (.error e, h) := by
                      rw [trace_route_fuelH]
                      dsimp only
                      rw [if_neg hrid, hreg]
                      dsimp only
                      rw [hlk]
                    rw [hstep, trace_route_fuel_succ, if_neg hrid, hreg]
                    dsimp only
                    rw [hlk]
                    refine ⟨⟨[], by simp⟩, ?_, by simp [Except.map]⟩
                    intro refs hr; cases hr
                | ok pr =>
                    rcases pr with ⟨nh?, raw⟩
                    cases nh? with
                    | none =>
                        have hstep : trace_route_fuelH reg tree (fuel + 1) (some rid) tgt ref h =
                            (.ok [h.length], h ++ [hGet h ref ++ [(some rid, raw)]]) := by
                          rw [trace_route_fuelH]
                          dsimp only
                          rw [if_neg hrid, hreg]
                          dsimp only
                          rw [hlk]
                          rfl
                        rw [hstep, trace_route_fuel_succ, if_neg hrid, hreg]
                        dsimp only
                        rw [hlk]
                        refine ⟨⟨_, rfl⟩, ?_, ?_⟩
                        · intro refs hr x hx
                          cases hr
                          rcases List.mem_singleton.mp hx with rfl
                          simp
                        · simp [Except.map, hAlloc_get]
                    | some nhl =>
                        cases nhl with
                        | nil =>
                            have hstep : trace_route_fuelH reg tree (fuel + 1) (some rid) tgt ref h =
                                (.ok [h.length], h ++ [hGet h ref ++ [(some rid, raw)]]) := by
                              rw [trace_route_fuelH]
                              dsimp only
                              rw [if_neg hrid, hreg]
                              dsimp only
                              rw [hlk]
                              rfl
                            rw [hstep, trace_route_fuel_succ, if_neg hrid, hreg]
                            dsimp only
                            rw [hlk]
                            refine ⟨⟨_, rfl⟩, ?_, ?_⟩
                            · intro refs hr x hx
                              cases hr
                              rcases List.mem_singleton.mp hx with rfl
                              simp
                            · simp [Except.map, hAlloc_get]
                        | cons nh0 nhrest =>
                            by_cases hloc : nexthop_is_local nh0 = true
                            · have hstep : trace_route_fuelH reg tree (fuel + 1) (some rid) tgt ref h =
                                  (.ok [h.length], h ++ [hGet h ref ++ [(some rid, raw)]]) := by
                                rw [trace_route_fuelH]
                                dsimp only
                                rw [if_neg hrid, hreg]
                                dsimp only
                                rw [hlk]
                                dsimp only
                                rw [if_pos hloc]
                                rfl
                              rw [hstep, trace_route_fuel_succ, if_neg hrid, hreg]
                              dsimp only
                              rw [hlk]
                              dsimp only
                              rw [if_pos hloc]
                              refine ⟨⟨_, rfl⟩, ?_, ?_⟩
                              · intro refs hr x hx
                                cases hr
                                rcases List.mem_singleton.mp hx with rfl
                                simp
                              · simp [Except.map, hAlloc_get]
                            · have hstep : trace_route_fuelH reg tree (fuel + 1) (some rid) tgt ref h =
                                  traceGoH (fun r p hh => trace_route_fuelH reg tree fuel r tgt p hh)
                                    tree h.length (nh0 :: nhrest) []
                                    (h ++ [hGet h ref ++ [(some rid, raw)]]) := by
                                rw [trace_route_fuelH]
                                dsimp only
                                rw [if_neg hrid, hreg]
                                dsimp only
                                rw [hlk]
                                dsimp only
                                rw [if_neg hloc]
                                rfl
                              have hgo := traceGoH_agree tree
                                (fun r p hh => trace_route_fuelH reg tree fuel r tgt p hh)
                                (fun r p => trace_route_fuel reg tree fuel r tgt p)
                                (fun r rf hh hrf => ih r rf hh hrf)
                                (nh0 :: nhrest) h.length
                                (h ++ [hGet h ref ++ [(some rid, raw)]]) []
                                (by simp) (by intro x hx; cases hx)
                              obtain ⟨⟨tail₂, htail₂⟩, hvalid₂, hagree₂⟩ := hgo
                              rw [hstep, trace_route_fuel_succ, if_neg hrid, hreg]
                              dsimp only
                              rw [hlk]
                              dsimp only
                              rw [if_neg hloc]
                              refine ⟨⟨[hGet h ref ++ [(some rid, raw)]] ++ tail₂,
                                by rw [htail₂, List.append_assoc]⟩, hvalid₂, ?_⟩
                              rw [hagree₂, hAlloc_get]
                              rfl

/-- C10: under the heap model of Python lists, `trace_route` never mutates
the list its `path` argument references (every extension allocates a fresh
list): every pre-existing heap object — in particular the shared
default-argument empty list — reads the same after the call; the referenced
result contents are exactly the pure function of the passed list's contents;
and a second identical call run after the first (on the heap the first call
left behind) produces the same result contents. -/
theorem c10_trace_route_no_mutation
    (reg : Registry) (tree : IfaceTree) (tgt : String) (fuel : Nat)
    (rid : Option String) (ref : Nat) (h : PHeap) (href : ref < h.length) :
    (∀ i, i < h.length →
      hGet (trace_route_fuelH reg tree fuel rid tgt ref h).2 i = hGet h i) ∧
    Except.map (fun refs => refs.map (hGet (trace_route_fuelH reg tree fuel rid tgt ref h).2))
        (trace_route_fuelH reg tree fuel rid tgt ref h).1 =
      trace_route_fuel reg tree fuel rid tgt (hGet h ref) ∧
    Except.map (fun refs => refs.map (hGet (trace_route_fuelH reg tree fuel rid tgt ref
          (trace_route_fuelH reg tree fuel rid tgt ref h).2).2))
        (trace_route_fuelH reg tree fuel rid tgt ref
          (trace_route_fuelH reg tree fuel rid tgt ref h).2).1 =
      Except.map (fun refs => refs.map (hGet (trace_route_fuelH reg tree fuel rid tgt ref h).2))
        (trace_route_fuelH reg tree fuel rid tgt ref h).1 := by
  obtain ⟨⟨tail, htail⟩, hvalid, hagree⟩ := traceH_agree reg tree tgt fuel rid ref h href
  have hframe : ∀ i, i < h.length →
      hGet (trace_route_fuelH reg tree fuel rid tgt ref h).2 i = hGet h i := by
    intro i hi
    rw [htail]
    exact hGet_append hi
  refine ⟨hframe, hagree, ?_⟩
  have href₁ : ref < (trace_route_fuelH reg tree fuel rid tgt ref h).2.length := by
    rw [htail, List.length_append]
    omega
  obtain ⟨_, _, hagree₂⟩ := traceH_agree reg tree tgt fuel rid ref
    (trace_route_fuelH reg tree fuel rid tgt ref h).2 href₁
  rw [hagree₂, hagree, hframe ref href]

/-- Witness for C10: a heap holding just the default empty path list. -/
theorem c10_witness :
    hGet (trace_route_fuelH exampleRegistry exampleTree 4 (some "A") "10.99.0.1" 0 [[]]).2 0 =
      hGet ([[]] : PHeap) 0 ∧
    Except.map (fun refs => refs.map
        (hGet (trace_route_fuelH exampleRegistry exampleTree 4 (some "A") "10.99.0.1" 0 [[]]).2))
        (trace_route_fuelH exampleRegistry exampleTree 4 (some "A") "10.99.0.1" 0 [[]]).1 =
      trace_route_fuel exampleRegistry exampleTree 4 (some "A") "10.99.0.1"
        (hGet ([[]] : PHeap) 0) :=
  ⟨(c10_trace_route_no_mutation exampleRegistry exampleTree "10.99.0.1" 4 (some "A") 0 [[]]
      (by decide)).1 0 (by decide),
   (c10_trace_route_no_mutation exampleRegistry exampleTree "10.99.0.1" 4 (some "A") 0 [[]]
      (by decide)).2.1⟩
